import Mathlib

/-!
# Verification of `SudokuSolver.py`

A shallow embedding of the Sudoku solver of this repository, together with
proofs about it.  The program models the 9×9 Sudoku board as a graph-coloring
problem: `build_sudoku_graph` builds an undirected conflict graph on the 81
cells, `solve_sudoku_with_graph` runs a chronological backtracking search over
the graph's node list, `generate_random_sudoku` produces a puzzle by solving
the empty grid and then zeroing randomly drawn cells, and `get_hint` returns
the first empty cell of a grid in row-major order together with the solved
grid's value there.

Modelling conventions:
* a cell is a pair of natural numbers `(row, col)`;
* a grid is a total function from cells to naturals (the Python program hands
  around a 9×9 list of lists; only the 81 in-range cells are ever read or
  written, and all claims are stated cellwise on those);
* the Python `colors` dictionary becomes a function `Cell → Option ℕ`
  (`none` = key absent), threaded explicitly through the recursion; the
  mutate/undo discipline of the source (`colors[node] = color` … `del
  colors[node]`) is reproduced literally by `cinsert` and `cerase`;
* `networkx.Graph` becomes a pair of a node list (insertion ordered, duplicate
  inserts ignored) and an undirected edge list (duplicate and reversed
  re-inserts ignored), exactly the observable behaviour the program relies on;
  the three loop blocks of `build_sudoku_graph` are embedded as the three
  functions `addCellNodes`, `addRowColEdges` and `addBoxEdges`;
* `possible_colors = {i for i in range(1, 10)}` is a CPython set of the nine
  small integers 1..9, which iterates in increasing order (each `i` hashes to
  itself and the hash table is large enough to be collision-free); it is
  therefore embedded as the increasing list `[1, …, 9]`;
* `random.randint` draws are passed in as an explicit list of drawn cells.
-/

set_option maxRecDepth 8000

abbrev Cell : Type := Nat × Nat

abbrev Grid : Type := Cell → Nat

abbrev ColorMap : Type := Cell → Option Nat

/-- The 81 board cells in row-major order (`(i, j)` for `i, j ∈ 0..8`). -/
def cellsList : List Cell :=
  (List.range 9).flatMap (fun i => (List.range 9).map (fun j => (i, j)))

/-- Dictionary insertion: `colors[node] = color`. -/
def cinsert (m : ColorMap) (k : Cell) (v : Nat) : ColorMap :=
  fun c => if c = k then some v else m c

/-- Dictionary deletion: `del colors[node]`. -/
def cerase (m : ColorMap) (k : Cell) : ColorMap :=
  fun c => if c = k then none else m c

/-- Embedding of the observable state of a `networkx.Graph`: the insertion
ordered node list and the undirected edge list. -/
structure PyGraph where
  nodes : List Cell
  edges : List (Cell × Cell)
  deriving DecidableEq

/-- `G.add_node(c)`: appends `c` unless it is already a node. -/
def addNode (G : PyGraph) (c : Cell) : PyGraph :=
  if c ∈ G.nodes then G else ⟨G.nodes ++ [c], G.edges⟩

/-- `G.has_edge(a, b)` for an undirected graph. -/
def hasEdge (G : PyGraph) (a b : Cell) : Bool :=
  G.edges.any (fun e => decide ((e.1 = a ∧ e.2 = b) ∨ (e.1 = b ∧ e.2 = a)))

/-- `G.add_edge(a, b)`: inserts missing endpoints, then the edge unless the
(undirected) edge is already present. -/
def addEdge (G : PyGraph) (a b : Cell) : PyGraph :=
  let G1 := addNode (addNode G a) b
  if hasEdge G1 a b then G1 else ⟨G1.nodes, G1.edges ++ [(a, b)]⟩

/-- The `add_node` loop of `build_sudoku_graph`: one node per cell, in
row-major loop order. -/
def addCellNodes (G : PyGraph) : PyGraph :=
  (List.range 9).foldl (fun G i =>
    (List.range 9).foldl (fun G j => addNode G (i, j)) G) G

/-- The body of the outer `for i in range(9)` loop of the row/column edge
block: for `j < k < 9` add the row edge `(i,j)—(i,k)` and the column edge
`(j,i)—(k,i)`. -/
def rowColStep (G : PyGraph) (i : Nat) : PyGraph :=
  (List.range 9).foldl (fun G j =>
    (List.range' (j + 1) (8 - j)).foldl (fun G k =>
      addEdge (addEdge G (i, j) (i, k)) (j, i) (k, i)) G) G

/-- The row/column edge block of `build_sudoku_graph`. -/
def addRowColEdges (G : PyGraph) : PyGraph :=
  (List.range 9).foldl rowColStep G

/-- The cell list of one 3×3 box, as built by the list comprehension in
`build_sudoku_graph`. -/
def boxCells (boxRow boxCol : Nat) : List Cell :=
  (List.range 3).flatMap (fun i =>
    (List.range 3).map (fun j => (boxRow * 3 + i, boxCol * 3 + j)))

/-- The body of the `for box_row … for box_col` loops of the box edge block:
add an edge between every two distinct cells of the box. -/
def boxStep (G : PyGraph) (boxRow boxCol : Nat) : PyGraph :=
  let cs := boxCells boxRow boxCol
  (List.range 9).foldl (fun G m =>
    (List.range' (m + 1) (8 - m)).foldl (fun G n =>
      addEdge G ((cs.get? m).getD (0, 0)) ((cs.get? n).getD (0, 0))) G) G

/-- The 3×3 subgrid edge block of `build_sudoku_graph`. -/
def addBoxEdges (G : PyGraph) : PyGraph :=
  (List.range 3).foldl (fun G boxRow =>
    (List.range 3).foldl (fun G boxCol => boxStep G boxRow boxCol) G) G

/-- `build_sudoku_graph()`: nodes for every cell, then edges for same-row,
same-column and same-box pairs, added in the source's loop order. -/
def build_sudoku_graph : PyGraph :=
  addBoxEdges (addRowColEdges (addCellNodes ⟨[], []⟩))

/-- `G.neighbors(c)`: every opposite endpoint of an edge at `c`, in edge
insertion order. -/
def neighbors (G : PyGraph) (c : Cell) : List Cell :=
  G.edges.foldl (fun acc e =>
    if e.1 = c then acc ++ [e.2]
    else if e.2 = c then acc ++ [e.1]
    else acc) []

/-- `possible_colors = {i for i in range(1, 10)}`: a CPython set of the nine
small integers, iterated in increasing order. -/
def possible_colors : List Nat := [1, 2, 3, 4, 5, 6, 7, 8, 9]

/-- `is_valid_coloring(node, color)`: no neighbor currently holds `color`. -/
def is_valid_coloring (G : PyGraph) (colors : ColorMap) (node : Cell)
    (color : Nat) : Bool :=
  (neighbors G node).all (fun nb => !(colors nb == some color))

/-- The `for color in possible_colors` loop body of `backtrack`: try each
color in turn; on a valid color assign it, recurse (`recur`), and on failure
delete the tentative assignment and continue with the next color. -/
def tryNode (G : PyGraph) (node : Cell) (recur : ColorMap → Bool × ColorMap) :
    List Nat → ColorMap → Bool × ColorMap
  | [], colors => (false, colors)
  | c :: cs, colors =>
    if is_valid_coloring G colors node c then
      match recur (cinsert colors node c) with
      | (true, colors2) => (true, colors2)
      | (false, colors2) => tryNode G node recur cs (cerase colors2 node)
    else
      tryNode G node recur cs colors

/-- `backtrack(node_index)`, traversing the node list structurally (the source
indexes `list(G.nodes)` by an increasing `node_index`, which is the same
traversal).  Pre-filled nodes are skipped; the color dictionary is threaded
through and returned alongside the success flag. -/
def backtrack (G : PyGraph) : List Cell → ColorMap → Bool × ColorMap
  | [], colors => (true, colors)
  | node :: rest, colors =>
    if (colors node).isSome then
      backtrack G rest colors
    else
      tryNode G node (backtrack G rest) possible_colors colors

/-- The seeding loop of `solve_sudoku_with_graph`: `colors[(i, j)] =
grid[i][j]` for every non-zero in-range cell. -/
def seedColors (grid : Grid) : ColorMap :=
  fun c => if c.1 < 9 ∧ c.2 < 9 ∧ grid c ≠ 0 then some (grid c) else none

/-- The tail of `solve_sudoku_with_graph`: on success write every dictionary
entry back into the grid (`grid[i][j] = value` for the items of `colors`,
pointwise); on failure return the grid untouched (the source mutates `grid`
only in the success branch). -/
def solveOut (grid : Grid) (r : Bool × ColorMap) : Bool × Grid :=
  match r with
  | (true, colors1) => (true, fun c => (colors1 c).getD (grid c))
  | (false, _) => (false, grid)

/-- The body of `solve_sudoku_with_graph` over an already built graph: seed
the color dictionary, run `backtrack`, and hand the result to `solveOut`. -/
def solveWith (G : PyGraph) (grid : Grid) : Bool × Grid :=
  solveOut grid (backtrack G G.nodes (seedColors grid))

/-- `solve_sudoku_with_graph(grid)`: build the conflict graph and solve over
it. -/
def solve_sudoku_with_graph (grid : Grid) : Bool × Grid :=
  solveWith build_sudoku_graph grid

/-- The all-empty base grid `[[0] * 9 for _ in range(9)]`. -/
def emptyGrid : Grid := fun _ => 0

/-- One removal step `base_grid[i][j] = 0`. -/
def removeCell (g : Grid) (d : Cell) : Grid :=
  fun c => if c = d then 0 else g c

/-- `generate_random_sudoku()`: solve the empty grid in place, then zero the
randomly drawn cells.  The `random.randint` draws are passed in as the list
`draws` (one drawn cell per loop iteration); the function returns only the
resulting puzzle grid, exactly as the source does. -/
def generate_random_sudoku (draws : List Cell) : Grid :=
  let base := (solve_sudoku_with_graph emptyGrid).2
  draws.foldl removeCell base

/-- `main`'s solved reference grid: a copy of the generated puzzle, solved
again with `solve_sudoku_with_graph` (lines 138–140 of the source). -/
def mainSolvedGrid (draws : List Cell) : Bool × Grid :=
  solve_sudoku_with_graph (generate_random_sudoku draws)

/-- The row-major scan of `get_hint`, over a list of cells still to visit. -/
def hintScan (grid solved : Grid) : List Cell → Option (Nat × Nat × Nat)
  | [] => none
  | c :: rest =>
    if grid c = 0 then some (c.1, c.2, solved c) else hintScan grid solved rest

/-- `get_hint(grid, solved_grid)`: the first cell of `grid` equal to `0` in
row-major order, with `solved_grid`'s value there; `none` when the grid is
full. -/
def get_hint (grid solved : Grid) : Option (Nat × Nat × Nat) :=
  hintScan grid solved cellsList

/-! ## The conflict relation, and a fast reference solver

`Conflict` is the specification's description of the edge relation: two
distinct cells sharing a row, a column, or a 3×3 box.  `conflictCells c`
enumerates the conflict partners of `c` directly; it is proved below to have
exactly the members of `neighbors build_sudoku_graph c`, which makes the
`solveF` solver below extensionally equal to `solve_sudoku_with_graph` while
being cheap to evaluate on concrete grids (it never scans the built edge
list). -/

/-- Two distinct cells share a row, a column, or a 3×3 box. -/
def Conflict (a b : Cell) : Prop :=
  a ≠ b ∧ (a.1 = b.1 ∨ a.2 = b.2 ∨ (a.1 / 3 = b.1 / 3 ∧ a.2 / 3 = b.2 / 3))

instance (a b : Cell) : Decidable (Conflict a b) := by
  unfold Conflict; infer_instance

/-- The conflict partners of a cell, enumerated directly. -/
def conflictCells (c : Cell) : List Cell :=
  cellsList.filter (fun b => decide (Conflict c b))

/-- `is_valid_coloring` with the neighbor list replaced by `conflictCells`. -/
def is_valid_fast (colors : ColorMap) (node : Cell) (color : Nat) : Bool :=
  (conflictCells node).all (fun nb => !(colors nb == some color))

/-- `tryNode` over `is_valid_fast`. -/
def tryNodeF (node : Cell) (recur : ColorMap → Bool × ColorMap) :
    List Nat → ColorMap → Bool × ColorMap
  | [], colors => (false, colors)
  | c :: cs, colors =>
    if is_valid_fast colors node c then
      match recur (cinsert colors node c) with
      | (true, colors2) => (true, colors2)
      | (false, colors2) => tryNodeF node recur cs (cerase colors2 node)
    else
      tryNodeF node recur cs colors

/-- `backtrack` over `is_valid_fast`. -/
def backtrackF : List Cell → ColorMap → Bool × ColorMap
  | [], colors => (true, colors)
  | node :: rest, colors =>
    if (colors node).isSome then
      backtrackF rest colors
    else
      tryNodeF node (backtrackF rest) possible_colors colors

/-- The fast reference solver, proved extensionally equal to
`solve_sudoku_with_graph` below. -/
def solveF (grid : Grid) : Bool × Grid :=
  solveOut grid (backtrackF cellsList (seedColors grid))

/-! ## Membership characterization of the built graph

The graph is characterized symbolically: `Adj` is the undirected edge
relation, each `add_edge` extends it by exactly one unordered pair, and fold
lemmas push that through the loop structure of `build_sudoku_graph`. -/

/-- The undirected edge relation of a `PyGraph`. -/
def Adj (G : PyGraph) (x y : Cell) : Prop :=
  (x, y) ∈ G.edges ∨ (y, x) ∈ G.edges

/-- Either orientation of the unordered pair `{a, b}`. -/
def pairAt (x y a b : Cell) : Prop := (x = a ∧ y = b) ∨ (x = b ∧ y = a)

/-! ### Auxiliary definitions used by the proofs below -/

/-- The unordered pairs inserted by the row/column block: two distinct
in-range cells sharing a row or a column. -/
def RowColPair (x y : Cell) : Prop :=
  x.1 < 9 ∧ x.2 < 9 ∧ y.1 < 9 ∧ y.2 < 9 ∧
    ((x.1 = y.1 ∧ x.2 ≠ y.2) ∨ (x.2 = y.2 ∧ x.1 ≠ y.1))

/-- The unordered pairs inserted by the box block: two distinct in-range cells
in the same 3×3 box. -/
def BoxPair (x y : Cell) : Prop :=
  x.1 < 9 ∧ x.2 < 9 ∧ y.1 < 9 ∧ y.2 < 9 ∧ x ≠ y ∧
    x.1 / 3 = y.1 / 3 ∧ x.2 / 3 = y.2 / 3

/-- Two edge-list entries denote the same unordered edge. -/
def UDup (e f : Cell × Cell) : Prop := e = f ∨ (e.1 = f.2 ∧ e.2 = f.1)

/-- The edge list never stores the same unordered edge twice (the `add_edge`
guard of `networkx.Graph`). -/
def EdgesNodupU (G : PyGraph) : Prop :=
  G.edges.Pairwise (fun e f => ¬ UDup e f)

/-- One step of the `neighbors` accumulation, as a `filterMap` function. -/
def nbStep (c : Cell) (e : Cell × Cell) : Option Cell :=
  if e.1 = c then some e.2 else if e.2 = c then some e.1 else none

/-- `m` extends `base`. -/
def MSub (base m : ColorMap) : Prop := ∀ k v, base k = some v → m k = some v

/-- Every cell colored during the search (absent from `base`) differs from
all of its neighbors. -/
def MInv (G : PyGraph) (base m : ColorMap) : Prop :=
  ∀ a v, base a = none → m a = some v → ∀ b ∈ neighbors G a, m b ≠ some v

/-- An explicit full valid Sudoku solution, used only as the witness that a
total conflict-free coloring exists. -/
def witnessRows : List (List Nat) :=
  [[1, 2, 3, 4, 5, 6, 7, 8, 9],
   [4, 5, 6, 7, 8, 9, 1, 2, 3],
   [7, 8, 9, 1, 2, 3, 4, 5, 6],
   [2, 3, 4, 5, 6, 7, 8, 9, 1],
   [5, 6, 7, 8, 9, 1, 2, 3, 4],
   [8, 9, 1, 2, 3, 4, 5, 6, 7],
   [3, 4, 5, 6, 7, 8, 9, 1, 2],
   [6, 7, 8, 9, 1, 2, 3, 4, 5],
   [9, 1, 2, 3, 4, 5, 6, 7, 8]]

/-- The witness solution as a grid. -/
def witnessGrid : Grid :=
  fun c => (((witnessRows.get? c.1).getD []).get? c.2).getD 0

/-- The scenario grid: `(0,0) = 5`, `(0,1) = 5`, everything else empty. -/
def gridTwoFives : Grid :=
  fun c => if c = ((0 : Nat), (0 : Nat)) then 5
    else if c = ((0 : Nat), (1 : Nat)) then 5 else 0

/-- A fully pre-filled grid of fives: every conflicting pair of pre-filled
cells is in direct contradiction. -/
def gridAllFives : Grid := fun _ => 5

/-- A fully pre-filled grid of sevens. -/
def gridAllSevens : Grid := fun _ => 7

/-- The explicit witness solution with its last cell cleared. -/
def witnessGridMinus : Grid :=
  fun c => if c = ((8 : Nat), (8 : Nat)) then 0 else witnessGrid c

/-- A grid that is fully pre-filled except `(0,0)`, whose neighbors hold all
nine digits, so the solve fails immediately. -/
def gridBlocked : Grid :=
  fun c => if c = ((0 : Nat), (0 : Nat)) then 0
    else if c.1 = 0 then c.2
    else if c = ((1 : Nat), (0 : Nat)) then 9 else 1

/-- The all-fives grid padded with a different value outside the board. -/
def gridFivesPadded : Grid := fun c => if c.1 < 9 ∧ c.2 < 9 then 5 else 7

/-- The two-fives grid with different wrong non-zero values entered. -/
def gridTwoOthers : Grid :=
  fun c => if c = ((0 : Nat), (0 : Nat)) then 9
    else if c = ((0 : Nat), (1 : Nat)) then 3 else 0

theorem mem_cellsList {c : Cell} : c ∈ cellsList ↔ c.1 < 9 ∧ c.2 < 9 := by
  obtain ⟨i, j⟩ := c
  simp only [cellsList, List.mem_flatMap, List.mem_map, List.mem_range,
    Prod.mk.injEq]
  constructor
  · rintro ⟨a, ha, b, hb, rfl, rfl⟩
    exact ⟨ha, hb⟩
  · rintro ⟨h1, h2⟩
    exact ⟨i, h1, j, h2, rfl, rfl⟩

theorem addNode_edges (G : PyGraph) (c : Cell) : (addNode G c).edges = G.edges := by
  unfold addNode; split <;> rfl

theorem addNode_eq_of_mem {G : PyGraph} {c : Cell} (h : c ∈ G.nodes) :
    addNode G c = G := by
  unfold addNode; simp [h]

theorem hasEdge_iff {G : PyGraph} {a b : Cell} : hasEdge G a b = true ↔ Adj G a b := by
  unfold hasEdge Adj
  simp only [List.any_eq_true, decide_eq_true_eq]
  constructor
  · rintro ⟨e, he, (⟨h1, h2⟩ | ⟨h1, h2⟩)⟩
    · exact Or.inl (by rwa [show (a, b) = e from (Prod.ext h1 h2).symm])
    · exact Or.inr (by rwa [show (b, a) = e from (Prod.ext h1 h2).symm])
  · rintro (h | h)
    · exact ⟨(a, b), h, Or.inl ⟨rfl, rfl⟩⟩
    · exact ⟨(b, a), h, Or.inr ⟨rfl, rfl⟩⟩

theorem addEdge_def (G : PyGraph) (a b : Cell) :
    addEdge G a b =
      if hasEdge (addNode (addNode G a) b) a b then addNode (addNode G a) b
      else ⟨(addNode (addNode G a) b).nodes,
            (addNode (addNode G a) b).edges ++ [(a, b)]⟩ := rfl

theorem addEdge_edges (G : PyGraph) (a b : Cell) :
    (addEdge G a b).edges = G.edges ∨
      (addEdge G a b).edges = G.edges ++ [(a, b)] := by
  rw [addEdge_def]
  split
  · exact Or.inl (by rw [addNode_edges, addNode_edges])
  · exact Or.inr (by rw [addNode_edges, addNode_edges])

theorem addEdge_nodes {G : PyGraph} {a b : Cell} (ha : a ∈ G.nodes)
    (hb : b ∈ G.nodes) : (addEdge G a b).nodes = G.nodes := by
  rw [addEdge_def, addNode_eq_of_mem ha, addNode_eq_of_mem hb]
  split <;> rfl

theorem hasEdge_addNode (G : PyGraph) (c : Cell) (a b : Cell) :
    hasEdge (addNode G c) a b = hasEdge G a b := by
  unfold hasEdge
  rw [addNode_edges]

theorem addEdge_adj {G : PyGraph} {a b x y : Cell} :
    Adj (addEdge G a b) x y ↔ Adj G x y ∨ pairAt x y a b := by
  rw [addEdge_def]
  split
  · rename_i h
    rw [hasEdge_addNode, hasEdge_addNode] at h
    have hadj : Adj G a b := hasEdge_iff.mp h
    have hE : Adj (addNode (addNode G a) b) x y ↔ Adj G x y := by
      unfold Adj
      rw [addNode_edges, addNode_edges]
    rw [hE]
    constructor
    · exact Or.inl
    · rintro (h' | (⟨rfl, rfl⟩ | ⟨rfl, rfl⟩))
      · exact h'
      · exact hadj
      · unfold Adj at hadj ⊢; tauto
  · show Adj ⟨_, (addNode (addNode G a) b).edges ++ [(a, b)]⟩ x y ↔ _
    unfold Adj pairAt
    simp only [addNode_edges, List.mem_append, List.mem_singleton,
      Prod.mk.injEq]
    tauto

theorem adj_foldl {β : Type} {f : PyGraph → β → PyGraph}
    (P : β → Cell → Cell → Prop) {x y : Cell}
    (hf : ∀ G i, Adj (f G i) x y ↔ Adj G x y ∨ P i x y) :
    ∀ (l : List β) (G : PyGraph),
      Adj (l.foldl f G) x y ↔ Adj G x y ∨ ∃ i ∈ l, P i x y := by
  intro l
  induction l with
  | nil => intro G; simp
  | cons i l ih =>
    intro G
    rw [List.foldl_cons, ih (f G i), hf]
    simp only [List.mem_cons]
    constructor
    · rintro ((h | h) | ⟨i', hi', h⟩)
      · exact Or.inl h
      · exact Or.inr ⟨i, Or.inl rfl, h⟩
      · exact Or.inr ⟨i', Or.inr hi', h⟩
    · rintro (h | ⟨i', (rfl | hi'), h⟩)
      · exact Or.inl (Or.inl h)
      · exact Or.inl (Or.inr h)
      · exact Or.inr ⟨i', hi', h⟩

theorem foldl_pres {β : Type} {f : PyGraph → β → PyGraph}
    (Q : PyGraph → Prop) :
    ∀ (l : List β) (G : PyGraph),
      (∀ G i, i ∈ l → Q G → Q (f G i)) → Q G → Q (l.foldl f G) := by
  intro l
  induction l with
  | nil => intro G _ hG; exact hG
  | cons i l ih =>
    intro G hf hG
    rw [List.foldl_cons]
    exact ih (f G i) (fun G' i' hi' => hf G' i' (List.mem_cons_of_mem i hi'))
      (hf G i (List.mem_cons_self i l) hG)

theorem adj_rowColStep {G : PyGraph} {i : Nat} {x y : Cell} :
    Adj (rowColStep G i) x y ↔ Adj G x y ∨
      ∃ j, j < 9 ∧ ∃ k, j < k ∧ k < 9 ∧
        (pairAt x y (i, j) (i, k) ∨ pairAt x y (j, i) (k, i)) := by
  unfold rowColStep
  rw [adj_foldl (fun j x y => ∃ k ∈ List.range' (j + 1) (8 - j),
        (pairAt x y (i, j) (i, k) ∨ pairAt x y (j, i) (k, i)))
      (fun G j => by
        rw [adj_foldl (fun k x y =>
              pairAt x y (i, j) (i, k) ∨ pairAt x y (j, i) (k, i))
            (fun G k => by rw [addEdge_adj, addEdge_adj]; tauto)])]
  constructor
  · rintro (h | ⟨j, hj, k, hk, h⟩)
    · exact Or.inl h
    · rw [List.mem_range] at hj
      rw [List.mem_range'_1] at hk
      exact Or.inr ⟨j, hj, k, by omega, by omega, h⟩
  · rintro (h | ⟨j, hj, k, hk1, hk2, h⟩)
    · exact Or.inl h
    · exact Or.inr ⟨j, List.mem_range.mpr hj, k,
        List.mem_range'_1.mpr (by omega), h⟩

theorem rcp_iff {x y : Cell} :
    (∃ i, i < 9 ∧ ∃ j, j < 9 ∧ ∃ k, j < k ∧ k < 9 ∧
      (pairAt x y (i, j) (i, k) ∨ pairAt x y (j, i) (k, i))) ↔
    RowColPair x y := by
  obtain ⟨x1, x2⟩ := x
  obtain ⟨y1, y2⟩ := y
  unfold pairAt RowColPair
  simp only [Prod.mk.injEq]
  constructor
  · rintro ⟨i, hi, j, hj, k, hjk, hk, h⟩
    rcases h with (⟨⟨e1, e2⟩, e3, e4⟩ | ⟨⟨e1, e2⟩, e3, e4⟩) |
      (⟨⟨e1, e2⟩, e3, e4⟩ | ⟨⟨e1, e2⟩, e3, e4⟩) <;> subst e1 <;> subst e2 <;>
      subst e3 <;> subst e4 <;> omega
  · rintro ⟨hx1, hx2, hy1, hy2, (⟨hr, hne⟩ | ⟨hc, hne⟩)⟩
    · rcases Nat.lt_or_ge x2 y2 with h | h
      · exact ⟨x1, hx1, x2, hx2, y2, h, hy2,
          Or.inl (Or.inl ⟨⟨rfl, rfl⟩, hr.symm, rfl⟩)⟩
      · exact ⟨x1, hx1, y2, hy2, x2, by omega, hx2,
          Or.inl (Or.inr ⟨⟨rfl, rfl⟩, hr.symm, rfl⟩)⟩
    · rcases Nat.lt_or_ge x1 y1 with h | h
      · exact ⟨x2, hx2, x1, hx1, y1, h, hy1,
          Or.inr (Or.inl ⟨⟨rfl, rfl⟩, rfl, hc.symm⟩)⟩
      · exact ⟨x2, hx2, y1, hy1, x1, by omega, hx1,
          Or.inr (Or.inr ⟨⟨rfl, rfl⟩, rfl, hc.symm⟩)⟩

theorem adj_addRowColEdges {G : PyGraph} {x y : Cell} :
    Adj (addRowColEdges G) x y ↔ Adj G x y ∨ RowColPair x y := by
  unfold addRowColEdges
  rw [adj_foldl (fun i x y => ∃ j, j < 9 ∧ ∃ k, j < k ∧ k < 9 ∧
        (pairAt x y (i, j) (i, k) ∨ pairAt x y (j, i) (k, i)))
      (fun G i => adj_rowColStep)]
  rw [← rcp_iff]
  constructor
  · rintro (h | ⟨i, hi, h⟩)
    · exact Or.inl h
    · exact Or.inr ⟨i, List.mem_range.mp hi, h⟩
  · rintro (h | ⟨i, hi, h⟩)
    · exact Or.inl h
    · exact Or.inr ⟨i, List.mem_range.mpr hi, h⟩

theorem boxCells_get {br bc m : Nat} (h : m < 9) :
    ((boxCells br bc).get? m).getD (0, 0) = (br * 3 + m / 3, bc * 3 + m % 3) := by
  interval_cases m <;> rfl

theorem boxStep_def (G : PyGraph) (br bc : Nat) :
    boxStep G br bc =
      (List.range 9).foldl (fun G m =>
        (List.range' (m + 1) (8 - m)).foldl (fun G n =>
          addEdge G (((boxCells br bc).get? m).getD (0, 0))
            (((boxCells br bc).get? n).getD (0, 0))) G) G := rfl

theorem adj_boxStep {G : PyGraph} {br bc : Nat} {x y : Cell} :
    Adj (boxStep G br bc) x y ↔ Adj G x y ∨
      ∃ m, m < 9 ∧ ∃ n, m < n ∧ n < 9 ∧
        pairAt x y (br * 3 + m / 3, bc * 3 + m % 3)
          (br * 3 + n / 3, bc * 3 + n % 3) := by
  rw [boxStep_def]
  rw [adj_foldl (fun m x y => ∃ n ∈ List.range' (m + 1) (8 - m),
        pairAt x y (((boxCells br bc).get? m).getD (0, 0))
          (((boxCells br bc).get? n).getD (0, 0)))
      (fun G m => by
        rw [adj_foldl (fun n x y =>
              pairAt x y (((boxCells br bc).get? m).getD (0, 0))
                (((boxCells br bc).get? n).getD (0, 0)))
            (fun G n => by rw [addEdge_adj])])]
  constructor
  · rintro (h | ⟨m, hm, n, hn, h⟩)
    · exact Or.inl h
    · rw [List.mem_range] at hm
      rw [List.mem_range'_1] at hn
      have hn9 : n < 9 := by omega
      rw [boxCells_get hm, boxCells_get hn9] at h
      exact Or.inr ⟨m, hm, n, by omega, hn9, h⟩
  · rintro (h | ⟨m, hm, n, hmn, hn, h⟩)
    · exact Or.inl h
    · refine Or.inr ⟨m, List.mem_range.mpr hm, n,
        List.mem_range'_1.mpr (by omega), ?_⟩
      rw [boxCells_get hm, boxCells_get hn]
      exact h

theorem boxp_iff {x y : Cell} :
    (∃ br, br < 3 ∧ ∃ bc, bc < 3 ∧ ∃ m, m < 9 ∧ ∃ n, m < n ∧ n < 9 ∧
      pairAt x y (br * 3 + m / 3, bc * 3 + m % 3)
        (br * 3 + n / 3, bc * 3 + n % 3)) ↔
    BoxPair x y := by
  obtain ⟨x1, x2⟩ := x
  obtain ⟨y1, y2⟩ := y
  unfold pairAt BoxPair
  simp only [Prod.mk.injEq, ne_eq]
  constructor
  · rintro ⟨br, hbr, bc, hbc, m, hm, n, hmn, hn, h⟩
    rcases h with ⟨⟨e1, e2⟩, e3, e4⟩ | ⟨⟨e1, e2⟩, e3, e4⟩ <;>
      subst e1 <;> subst e2 <;> subst e3 <;> subst e4 <;>
      refine ⟨by omega, by omega, by omega, by omega, fun hc => ?_, by omega,
        by omega⟩ <;> omega
  · rintro ⟨hx1, hx2, hy1, hy2, hne, hbr, hbc⟩
    rcases Nat.lt_trichotomy (x1 % 3 * 3 + x2 % 3) (y1 % 3 * 3 + y2 % 3) with
      h | h | h
    · refine ⟨x1 / 3, by omega, x2 / 3, by omega,
        x1 % 3 * 3 + x2 % 3, by omega, y1 % 3 * 3 + y2 % 3, h, by omega,
        Or.inl ⟨⟨by omega, by omega⟩, by omega, by omega⟩⟩
    · exact absurd ⟨by omega, by omega⟩ hne
    · refine ⟨x1 / 3, by omega, x2 / 3, by omega,
        y1 % 3 * 3 + y2 % 3, by omega, x1 % 3 * 3 + x2 % 3, h, by omega,
        Or.inr ⟨⟨by omega, by omega⟩, by omega, by omega⟩⟩

theorem adj_addBoxEdges {G : PyGraph} {x y : Cell} :
    Adj (addBoxEdges G) x y ↔ Adj G x y ∨ BoxPair x y := by
  unfold addBoxEdges
  rw [adj_foldl (fun br x y => ∃ bc ∈ List.range 3,
        ∃ m, m < 9 ∧ ∃ n, m < n ∧ n < 9 ∧
          pairAt x y (br * 3 + m / 3, bc * 3 + m % 3)
            (br * 3 + n / 3, bc * 3 + n % 3))
      (fun G br => by
        rw [adj_foldl (fun bc x y => ∃ m, m < 9 ∧ ∃ n, m < n ∧ n < 9 ∧
              pairAt x y (br * 3 + m / 3, bc * 3 + m % 3)
                (br * 3 + n / 3, bc * 3 + n % 3))
            (fun G bc => adj_boxStep)])]
  rw [← boxp_iff]
  constructor
  · rintro (h | ⟨br, hbr, bc, hbc, h⟩)
    · exact Or.inl h
    · exact Or.inr ⟨br, List.mem_range.mp hbr, bc, List.mem_range.mp hbc, h⟩
  · rintro (h | ⟨br, hbr, bc, hbc, h⟩)
    · exact Or.inl h
    · exact Or.inr ⟨br, List.mem_range.mpr hbr, bc, List.mem_range.mpr hbc, h⟩

theorem addCellNodes_edges : (addCellNodes ⟨[], []⟩).edges = [] := by
  unfold addCellNodes
  apply foldl_pres (fun H => H.edges = [])
  · intro G i _ hG
    apply foldl_pres (fun H => H.edges = [])
    · intro G' j _ hG'
      rw [addNode_edges]
      exact hG'
    · exact hG
  · rfl

theorem addCellNodes_nodes : (addCellNodes ⟨[], []⟩).nodes = cellsList := by
  decide

theorem adj_build {x y : Cell} :
    Adj build_sudoku_graph x y ↔
      x ∈ cellsList ∧ y ∈ cellsList ∧ Conflict x y := by
  unfold build_sudoku_graph
  rw [adj_addBoxEdges, adj_addRowColEdges]
  have h0 : Adj (addCellNodes ⟨[], []⟩) x y ↔ False := by
    unfold Adj
    rw [addCellNodes_edges]
    simp
  rw [h0]
  obtain ⟨x1, x2⟩ := x
  obtain ⟨y1, y2⟩ := y
  simp only [mem_cellsList, Conflict, RowColPair, BoxPair, ne_eq,
    Prod.mk.injEq, not_and, false_or]
  constructor
  · rintro (⟨hx1, hx2, hy1, hy2, h⟩ | ⟨hx1, hx2, hy1, hy2, hne, h1, h2⟩)
    · exact ⟨⟨hx1, hx2⟩, ⟨hy1, hy2⟩, by omega, by omega⟩
    · exact ⟨⟨hx1, hx2⟩, ⟨hy1, hy2⟩, hne, Or.inr (Or.inr ⟨h1, h2⟩)⟩
  · rintro ⟨⟨hx1, hx2⟩, ⟨hy1, hy2⟩, hne, h⟩
    have hne' : ¬(x1 = y1 ∧ x2 = y2) := fun hc => hne hc.1 hc.2
    rcases h with h | h | h
    · exact Or.inl ⟨hx1, hx2, hy1, hy2, Or.inl ⟨h, by omega⟩⟩
    · exact Or.inl ⟨hx1, hx2, hy1, hy2, Or.inr ⟨h, by omega⟩⟩
    · exact Or.inr ⟨hx1, hx2, hy1, hy2, by omega, h.1, h.2⟩

theorem rowColStep_nodes {G : PyGraph} {i : Nat} (hi : i < 9)
    (h : G.nodes = cellsList) : (rowColStep G i).nodes = cellsList := by
  unfold rowColStep
  apply foldl_pres (fun H => H.nodes = cellsList)
  · intro G' j hj hG'
    rw [List.mem_range] at hj
    apply foldl_pres (fun H => H.nodes = cellsList)
    · intro G'' k hk hG''
      rw [List.mem_range'_1] at hk
      have hmem : ∀ p : Cell, p.1 < 9 → p.2 < 9 → p ∈ G''.nodes := by
        intro p h1 h2
        rw [hG'', mem_cellsList]
        exact ⟨h1, h2⟩
      have h1 : (addEdge G'' (i, j) (i, k)).nodes = G''.nodes :=
        addEdge_nodes (hmem _ hi hj) (hmem _ hi (by omega))
      have h2 : (addEdge (addEdge G'' (i, j) (i, k)) (j, i) (k, i)).nodes =
          (addEdge G'' (i, j) (i, k)).nodes :=
        addEdge_nodes (by rw [h1]; exact hmem _ hj hi)
          (by rw [h1]; exact hmem _ (by omega) hi)
      rw [h2, h1, hG'']
    · exact hG'
  · exact h

theorem addRowColEdges_nodes {G : PyGraph} (h : G.nodes = cellsList) :
    (addRowColEdges G).nodes = cellsList := by
  unfold addRowColEdges
  apply foldl_pres (fun H => H.nodes = cellsList)
  · intro G' i hi hG'
    exact rowColStep_nodes (List.mem_range.mp hi) hG'
  · exact h

theorem boxStep_nodes {G : PyGraph} {br bc : Nat} (hbr : br < 3) (hbc : bc < 3)
    (h : G.nodes = cellsList) : (boxStep G br bc).nodes = cellsList := by
  rw [boxStep_def]
  apply foldl_pres (fun H => H.nodes = cellsList)
  · intro G' m hm hG'
    rw [List.mem_range] at hm
    apply foldl_pres (fun H => H.nodes = cellsList)
    · intro G'' n hn hG''
      rw [List.mem_range'_1] at hn
      have hn9 : n < 9 := by omega
      have hmem : ∀ p : Cell, p.1 < 9 → p.2 < 9 → p ∈ G''.nodes := by
        intro p h1 h2
        rw [hG'', mem_cellsList]
        exact ⟨h1, h2⟩
      rw [boxCells_get hm, boxCells_get hn9,
        addEdge_nodes (hmem _ (by omega) (by omega)) (hmem _ (by omega) (by omega)),
        hG'']
    · exact hG'
  · exact h

theorem addBoxEdges_nodes {G : PyGraph} (h : G.nodes = cellsList) :
    (addBoxEdges G).nodes = cellsList := by
  unfold addBoxEdges
  apply foldl_pres (fun H => H.nodes = cellsList)
  · intro G' br hbr hG'
    apply foldl_pres (fun H => H.nodes = cellsList)
    · intro G'' bc hbc hG''
      exact boxStep_nodes (List.mem_range.mp hbr) (List.mem_range.mp hbc) hG''
    · exact hG'
  · exact h

theorem build_nodes : build_sudoku_graph.nodes = cellsList :=
  addBoxEdges_nodes (addRowColEdges_nodes addCellNodes_nodes)

/-! ## Neighbor lists: membership, no duplicates, degree -/

theorem hasEdge_eq_false {G : PyGraph} {a b : Cell} (h : ¬ Adj G a b) :
    ∀ e ∈ G.edges, ¬((e.1 = a ∧ e.2 = b) ∨ (e.1 = b ∧ e.2 = a)) := by
  intro e he hor
  apply h
  rw [← hasEdge_iff]
  unfold hasEdge
  rw [List.any_eq_true]
  exact ⟨e, he, decide_eq_true hor⟩

theorem addEdge_edgesNodupU {G : PyGraph} {a b : Cell} (h : EdgesNodupU G) :
    EdgesNodupU (addEdge G a b) := by
  rw [addEdge_def]
  split
  · unfold EdgesNodupU at h ⊢
    rw [addNode_edges, addNode_edges]
    exact h
  · rename_i hE
    rw [hasEdge_addNode, hasEdge_addNode] at hE
    have hnadj : ¬ Adj G a b := fun hadj => hE (hasEdge_iff.mpr hadj)
    unfold EdgesNodupU at h ⊢
    show List.Pairwise _ ((addNode (addNode G a) b).edges ++ [(a, b)])
    rw [addNode_edges, addNode_edges]
    rw [List.pairwise_append]
    refine ⟨h, List.pairwise_singleton _ _, ?_⟩
    intro e he f hf
    rw [List.mem_singleton] at hf
    subst hf
    rintro (rfl | ⟨h1, h2⟩)
    · exact hasEdge_eq_false hnadj _ he (Or.inl ⟨rfl, rfl⟩)
    · exact hasEdge_eq_false hnadj _ he (Or.inr ⟨h1, h2⟩)

theorem foldl_edgesNodupU {β : Type} {f : PyGraph → β → PyGraph}
    (hf : ∀ G i, EdgesNodupU G → EdgesNodupU (f G i)) :
    ∀ (l : List β) (G : PyGraph), EdgesNodupU G → EdgesNodupU (l.foldl f G) := by
  intro l
  induction l with
  | nil => intro G hG; exact hG
  | cons i l ih => intro G hG; exact ih (f G i) (hf G i hG)

theorem build_edgesNodupU : EdgesNodupU build_sudoku_graph := by
  unfold build_sudoku_graph
  have h0 : EdgesNodupU (addCellNodes ⟨[], []⟩) := by
    unfold EdgesNodupU
    rw [addCellNodes_edges]
    exact List.Pairwise.nil
  have h1 : EdgesNodupU (addRowColEdges (addCellNodes ⟨[], []⟩)) := by
    unfold addRowColEdges
    refine foldl_edgesNodupU (fun G i hG => ?_) _ _ h0
    unfold rowColStep
    refine foldl_edgesNodupU (fun G' j hG' => ?_) _ _ hG
    refine foldl_edgesNodupU (fun G'' k hG'' => ?_) _ _ hG'
    exact addEdge_edgesNodupU (addEdge_edgesNodupU hG'')
  unfold addBoxEdges
  refine foldl_edgesNodupU (fun G br hG => ?_) _ _ h1
  refine foldl_edgesNodupU (fun G' bc hG' => ?_) _ _ hG
  rw [boxStep_def]
  refine foldl_edgesNodupU (fun G'' m hG'' => ?_) _ _ hG'
  refine foldl_edgesNodupU (fun G3 n hG3 => ?_) _ _ hG''
  exact addEdge_edgesNodupU hG3

theorem neighbors_eq_filterMap (G : PyGraph) (c : Cell) :
    neighbors G c = G.edges.filterMap (nbStep c) := by
  suffices h : ∀ (es : List (Cell × Cell)) (acc : List Cell),
      es.foldl (fun acc e =>
        if e.1 = c then acc ++ [e.2]
        else if e.2 = c then acc ++ [e.1]
        else acc) acc = acc ++ es.filterMap (nbStep c) by
    exact (h G.edges []).trans (by rw [List.nil_append])
  intro es
  induction es with
  | nil => intro acc; simp
  | cons e es ih =>
    intro acc
    rw [List.foldl_cons]
    by_cases h1 : e.1 = c
    · simp [ih, List.filterMap_cons, nbStep, h1]
    · by_cases h2 : e.2 = c
      · simp [ih, List.filterMap_cons, nbStep, h1, h2]
      · simp [ih, List.filterMap_cons, nbStep, h1, h2]

theorem mem_neighbors {G : PyGraph} {c b : Cell} :
    b ∈ neighbors G c ↔ Adj G c b := by
  rw [neighbors_eq_filterMap, List.mem_filterMap]
  constructor
  · rintro ⟨e, he, hf⟩
    unfold nbStep at hf
    split_ifs at hf with h1 h2
    · injection hf with hf
      exact Or.inl (by rwa [show (c, b) = e from (Prod.ext h1 hf).symm])
    · injection hf with hf
      exact Or.inr (by rwa [show (b, c) = e from (Prod.ext hf h2).symm])
  · rintro (h | h)
    · exact ⟨(c, b), h, by unfold nbStep; rw [if_pos rfl]⟩
    · by_cases hbc : b = c
      · subst hbc
        exact ⟨(b, b), h, by unfold nbStep; rw [if_pos rfl]⟩
      · exact ⟨(b, c), h, by unfold nbStep; rw [if_neg hbc, if_pos rfl]⟩

theorem neighbors_nodup {G : PyGraph} (c : Cell) (h : EdgesNodupU G) :
    (neighbors G c).Nodup := by
  rw [neighbors_eq_filterMap]
  refine List.Pairwise.filterMap (nbStep c) ?_ h
  intro e f hnd x hx y hy hxy
  subst hxy
  unfold nbStep at hx hy
  rw [Option.mem_def] at hx hy
  by_cases h1 : e.1 = c
  · rw [if_pos h1] at hx
    injection hx with hx
    by_cases h3 : f.1 = c
    · rw [if_pos h3] at hy
      injection hy with hy
      exact hnd (Or.inl (Prod.ext (h1.trans h3.symm) (hx.trans hy.symm)))
    · by_cases h4 : f.2 = c
      · rw [if_neg h3, if_pos h4] at hy
        injection hy with hy
        exact hnd (Or.inr ⟨h1.trans h4.symm, hx.trans hy.symm⟩)
      · rw [if_neg h3, if_neg h4] at hy
        exact Option.noConfusion hy
  · by_cases h2 : e.2 = c
    · rw [if_neg h1, if_pos h2] at hx
      injection hx with hx
      by_cases h3 : f.1 = c
      · rw [if_pos h3] at hy
        injection hy with hy
        exact hnd (Or.inr ⟨hx.trans hy.symm, h2.trans h3.symm⟩)
      · by_cases h4 : f.2 = c
        · rw [if_neg h3, if_pos h4] at hy
          injection hy with hy
          exact hnd (Or.inl (Prod.ext (hx.trans hy.symm) (h2.trans h4.symm)))
        · rw [if_neg h3, if_neg h4] at hy
          exact Option.noConfusion hy
    · rw [if_neg h1, if_neg h2] at hx
      exact Option.noConfusion hx

theorem conflict_symm {a b : Cell} (h : Conflict a b) : Conflict b a := by
  obtain ⟨hne, h⟩ := h
  refine ⟨fun he => hne he.symm, ?_⟩
  rcases h with h | h | ⟨h1, h2⟩
  · exact Or.inl h.symm
  · exact Or.inr (Or.inl h.symm)
  · exact Or.inr (Or.inr ⟨h1.symm, h2.symm⟩)

theorem mem_conflictCells {c b : Cell} :
    b ∈ conflictCells c ↔ b ∈ cellsList ∧ Conflict c b := by
  unfold conflictCells
  rw [List.mem_filter, decide_eq_true_iff]

theorem cellsList_nodup : cellsList.Nodup := by decide

theorem mem_neighbors_build {c b : Cell} :
    b ∈ neighbors build_sudoku_graph c ↔
      c ∈ cellsList ∧ b ∈ cellsList ∧ Conflict c b :=
  mem_neighbors.trans adj_build

theorem neighbors_build_irrefl (c : Cell) :
    c ∉ neighbors build_sudoku_graph c := by
  intro h
  exact (mem_neighbors_build.mp h).2.2.1 rfl

theorem neighbors_build_symm {a b : Cell}
    (h : b ∈ neighbors build_sudoku_graph a) :
    a ∈ neighbors build_sudoku_graph b := by
  obtain ⟨ha, hb, hc⟩ := mem_neighbors_build.mp h
  exact mem_neighbors_build.mpr ⟨hb, ha, conflict_symm hc⟩

theorem mem_neighbors_build_of_mem {c b : Cell} (hc : c ∈ cellsList) :
    b ∈ neighbors build_sudoku_graph c ↔ b ∈ conflictCells c := by
  rw [mem_neighbors_build, mem_conflictCells]
  constructor
  · rintro ⟨_, h1, h2⟩
    exact ⟨h1, h2⟩
  · rintro ⟨h1, h2⟩
    exact ⟨hc, h1, h2⟩

theorem conflictCells_nodup (c : Cell) : (conflictCells c).Nodup :=
  cellsList_nodup.filter _

theorem conflictCells_length : ∀ c ∈ cellsList, (conflictCells c).length = 20 := by
  decide

theorem neighbors_build_perm {c : Cell} (hc : c ∈ cellsList) :
    (neighbors build_sudoku_graph c).Perm (conflictCells c) := by
  apply List.perm_of_nodup_nodup_toFinset_eq
    (neighbors_nodup c build_edgesNodupU) (conflictCells_nodup c)
  apply Finset.ext
  intro b
  rw [List.mem_toFinset, List.mem_toFinset]
  exact mem_neighbors_build_of_mem hc

theorem neighbors_build_length {c : Cell} (hc : c ∈ cellsList) :
    (neighbors build_sudoku_graph c).length = 20 :=
  ((neighbors_build_perm hc).length_eq).trans (conflictCells_length c hc)

/-! ## Properties of the backtracking search

All lemmas below are generic in the graph `G`; they are instantiated at
`build_sudoku_graph` in the claim proofs. -/

theorem cerase_cinsert {m : ColorMap} {node : Cell} {c : Nat}
    (h : m node = none) : cerase (cinsert m node c) node = m := by
  funext x
  show (if x = node then none else cinsert m node c x) = m x
  by_cases hx : x = node
  · rw [if_pos hx, hx, h]
  · rw [if_neg hx]
    show (if x = node then some c else m x) = m x
    rw [if_neg hx]

theorem cerase_self (m : ColorMap) (node : Cell) : cerase m node node = none := by
  show (if node = node then none else m node) = none
  rw [if_pos rfl]

theorem cinsert_self (m : ColorMap) (node : Cell) (c : Nat) :
    cinsert m node c node = some c := by
  show (if node = node then some c else m node) = some c
  rw [if_pos rfl]

theorem cinsert_other {m : ColorMap} {node k : Cell} (c : Nat) (h : k ≠ node) :
    cinsert m node c k = m k := by
  show (if k = node then some c else m k) = m k
  rw [if_neg h]

theorem tryNode_false {G : PyGraph} {node : Cell}
    {recur : ColorMap → Bool × ColorMap}
    (hrec : ∀ x y, recur x = (false, y) → y = x) :
    ∀ (cs : List Nat) (m m' : ColorMap), m node = none →
      tryNode G node recur cs m = (false, m') → m' = m := by
  intro cs
  induction cs with
  | nil =>
    intro m m' _ h
    rw [tryNode] at h
    injection h with _ h
    exact h.symm
  | cons c cs ih =>
    intro m m' hnode h
    rw [tryNode] at h
    split at h
    · rcases hr : recur (cinsert m node c) with ⟨b, m2⟩
      rw [hr] at h
      cases b
      · have hm2 : m2 = cinsert m node c := hrec _ _ hr
        have hzero : (cerase m2 node) node = none := cerase_self m2 node
        have := ih (cerase m2 node) m' hzero h
        rw [this, hm2, cerase_cinsert hnode]
      · exact absurd (congrArg Prod.fst h) (by simp)
    · exact ih m m' hnode h

theorem backtrack_false {G : PyGraph} :
    ∀ (l : List Cell) (m m' : ColorMap),
      backtrack G l m = (false, m') → m' = m := by
  intro l
  induction l with
  | nil =>
    intro m m' h
    rw [backtrack] at h
    exact absurd (congrArg Prod.fst h) (by simp)
  | cons node rest ih =>
    intro m m' h
    rw [backtrack] at h
    split at h
    · exact ih m m' h
    · rename_i hnode
      rw [Option.not_isSome_iff_eq_none] at hnode
      exact tryNode_false (fun x y hxy => ih x y hxy) possible_colors m m'
        hnode h

theorem tryNode_some {G : PyGraph} {node : Cell}
    {recur : ColorMap → Bool × ColorMap}
    (hrecF : ∀ x y, recur x = (false, y) → y = x)
    (hrecT : ∀ x y, recur x = (true, y) → ∀ k, (x k).isSome → y k = x k) :
    ∀ (cs : List Nat) (m m' : ColorMap), m node = none →
      tryNode G node recur cs m = (true, m') →
      ∀ k, (m k).isSome → m' k = m k := by
  intro cs
  induction cs with
  | nil =>
    intro m m' _ h
    rw [tryNode] at h
    exact absurd (congrArg Prod.fst h) (by simp)
  | cons c cs ih =>
    intro m m' hnode h
    rw [tryNode] at h
    split at h
    · rcases hr : recur (cinsert m node c) with ⟨b, m2⟩
      rw [hr] at h
      cases b
      · have hm2 : m2 = cinsert m node c := hrecF _ _ hr
        intro k hk
        have hre : cerase m2 node = m := by rw [hm2, cerase_cinsert hnode]
        rw [← hre] at hk ⊢
        exact ih (cerase m2 node) m' (cerase_self m2 node) h k hk
      · injection h with _ h
        subst h
        intro k hk
        have hkn : k ≠ node := fun he => by
          rw [he, hnode] at hk
          exact Bool.noConfusion hk
        have := hrecT _ _ hr k (by rwa [cinsert_other c hkn])
        rwa [cinsert_other c hkn] at this
    · exact ih m m' hnode h

theorem backtrack_some {G : PyGraph} :
    ∀ (l : List Cell) (m m' : ColorMap),
      backtrack G l m = (true, m') → ∀ k, (m k).isSome → m' k = m k := by
  intro l
  induction l with
  | nil =>
    intro m m' h
    rw [backtrack] at h
    injection h with _ h
    rw [← h]
    intro k _
    rfl
  | cons node rest ih =>
    intro m m' h
    rw [backtrack] at h
    split at h
    · exact ih m m' h
    · rename_i hnode
      rw [Option.not_isSome_iff_eq_none] at hnode
      exact tryNode_some (fun x y hxy => backtrack_false rest x y hxy)
        (fun x y hxy => ih x y hxy) possible_colors m m' hnode h

theorem tryNode_fills {G : PyGraph} {node : Cell} (rest : List Cell)
    {recur : ColorMap → Bool × ColorMap}
    (hrecF : ∀ x y, recur x = (false, y) → y = x)
    (hrecT : ∀ x y, recur x = (true, y) → ∀ k, (x k).isSome → y k = x k)
    (hrecFill : ∀ x y, recur x = (true, y) → ∀ n ∈ rest,
      ∃ v, y n = some v ∧ (x n = some v ∨ v ∈ possible_colors)) :
    ∀ (cs : List Nat), (∀ c ∈ cs, c ∈ possible_colors) →
      ∀ (m m' : ColorMap), m node = none →
      tryNode G node recur cs m = (true, m') →
      (∃ v, m' node = some v ∧ v ∈ possible_colors) ∧
        ∀ n ∈ rest, ∃ v, m' n = some v ∧
          (m n = some v ∨ v ∈ possible_colors) := by
  intro cs
  induction cs with
  | nil =>
    intro _ m m' _ h
    rw [tryNode] at h
    exact absurd (congrArg Prod.fst h) (by simp)
  | cons c cs ih =>
    intro hcs m m' hnode h
    rw [tryNode] at h
    split at h
    · rcases hr : recur (cinsert m node c) with ⟨b, m2⟩
      rw [hr] at h
      cases b
      · have hm2 : m2 = cinsert m node c := hrecF _ _ hr
        have hre : cerase m2 node = m := by rw [hm2, cerase_cinsert hnode]
        have hres := ih (fun c' hc' => hcs c' (List.mem_cons_of_mem c hc'))
          (cerase m2 node) m' (cerase_self m2 node) h
        rw [hre] at hres
        exact hres
      · injection h with _ h
        subst h
        constructor
        · refine ⟨c, ?_, hcs c (List.mem_cons_self c cs)⟩
          have := hrecT _ _ hr node (by rw [cinsert_self]; rfl)
          rw [this, cinsert_self]
        · intro n hn
          obtain ⟨v, hv1, hv2⟩ := hrecFill _ _ hr n hn
          refine ⟨v, hv1, ?_⟩
          rcases hv2 with hv2 | hv2
          · by_cases hne : n = node
            · subst hne
              rw [cinsert_self] at hv2
              injection hv2 with hv2
              exact Or.inr (hv2 ▸ hcs c (List.mem_cons_self c cs))
            · rw [cinsert_other c hne] at hv2
              exact Or.inl hv2
          · exact Or.inr hv2
    · exact ih (fun c' hc' => hcs c' (List.mem_cons_of_mem c hc')) m m'
        hnode h

theorem backtrack_fills {G : PyGraph} :
    ∀ (l : List Cell) (m m' : ColorMap),
      backtrack G l m = (true, m') → ∀ n ∈ l,
      ∃ v, m' n = some v ∧ (m n = some v ∨ v ∈ possible_colors) := by
  intro l
  induction l with
  | nil =>
    intro m m' _ n hn
    exact absurd hn (List.not_mem_nil n)
  | cons node rest ih =>
    intro m m' h n hn
    rw [backtrack] at h
    split at h
    · rename_i hnode
      rw [List.mem_cons] at hn
      rcases hn with rfl | hn
      · obtain ⟨v, hv⟩ := Option.isSome_iff_exists.mp hnode
        exact ⟨v, by rw [backtrack_some rest m m' h n hnode, hv], Or.inl hv⟩
      · exact ih m m' h n hn
    · rename_i hnode
      rw [Option.not_isSome_iff_eq_none] at hnode
      have hfill := tryNode_fills rest
        (fun x y hxy => backtrack_false rest x y hxy)
        (fun x y hxy => backtrack_some rest x y hxy)
        (fun x y hxy => ih x y hxy)
        possible_colors (fun c hc => hc) m m' hnode h
      rw [List.mem_cons] at hn
      rcases hn with rfl | hn
      · obtain ⟨v, hv1, hv2⟩ := hfill.1
        exact ⟨v, hv1, Or.inr hv2⟩
      · exact hfill.2 n hn

theorem is_valid_true_iff {G : PyGraph} {m : ColorMap} {node : Cell}
    {color : Nat} :
    is_valid_coloring G m node color = true ↔
      ∀ b ∈ neighbors G node, m b ≠ some color := by
  unfold is_valid_coloring
  rw [List.all_eq_true]
  constructor
  · intro h b hb
    have := h b hb
    rwa [Bool.not_eq_eq_eq_not, Bool.not_true, beq_eq_false_iff_ne] at this
  · intro h b hb
    rw [Bool.not_eq_eq_eq_not, Bool.not_true, beq_eq_false_iff_ne]
    exact h b hb

theorem tryNode_inv {G : PyGraph} {node : Cell} {base : ColorMap}
    {recur : ColorMap → Bool × ColorMap}
    (hGsym : ∀ a b, b ∈ neighbors G a → a ∈ neighbors G b)
    (hGirr : ∀ a, a ∉ neighbors G a)
    (hrecF : ∀ x y, recur x = (false, y) → y = x)
    (hrecI : ∀ x y, MSub base x → MInv G base x → recur x = (true, y) →
      MSub base y ∧ MInv G base y) :
    ∀ (cs : List Nat) (m m' : ColorMap), m node = none →
      MSub base m → MInv G base m →
      tryNode G node recur cs m = (true, m') →
      MSub base m' ∧ MInv G base m' := by
  intro cs
  induction cs with
  | nil =>
    intro m m' _ _ _ h
    rw [tryNode] at h
    exact absurd (congrArg Prod.fst h) (by simp)
  | cons c cs ih =>
    intro m m' hnode hsub hinv h
    rw [tryNode] at h
    split at h
    · rename_i hval
      rcases hr : recur (cinsert m node c) with ⟨b, m2⟩
      rw [hr] at h
      cases b
      · have hm2 : m2 = cinsert m node c := hrecF _ _ hr
        have hre : cerase m2 node = m := by rw [hm2, cerase_cinsert hnode]
        have hres := ih (cerase m2 node) m' (cerase_self m2 node)
          (by rw [hre]; exact hsub) (by rw [hre]; exact hinv) h
        exact hres
      · injection h with _ h
        subst h
        have hbase : base node = none := by
          rcases hb : base node with _ | v
          · rfl
          · rw [hsub node v hb] at hnode
            exact Option.noConfusion hnode
        have hvalid := is_valid_true_iff.mp hval
        have hsubx : MSub base (cinsert m node c) := by
          intro k v hk
          have hkn : k ≠ node := fun he => by
            rw [he, hbase] at hk
            exact Option.noConfusion hk
          rw [cinsert_other c hkn]
          exact hsub k v hk
        have hinvx : MInv G base (cinsert m node c) := by
          intro a v ha hav b hb hbv
          by_cases han : a = node
          · subst han
            rw [cinsert_self] at hav
            injection hav with hav
            have hbn : b ≠ a := fun he => hGirr a (he ▸ hb)
            rw [cinsert_other c hbn] at hbv
            exact hvalid b hb (by rw [hbv, hav])
          · rw [cinsert_other c han] at hav
            by_cases hbn : b = node
            · subst hbn
              rw [cinsert_self] at hbv
              injection hbv with hbv
              exact hvalid a (hGsym a b hb) (by rw [hav, hbv])
            · rw [cinsert_other c hbn] at hbv
              exact hinv a v ha hav b hb hbv
        exact hrecI _ _ hsubx hinvx hr
    · exact ih m m' hnode hsub hinv h

theorem backtrack_inv (G : PyGraph)
    (hGsym : ∀ a b, b ∈ neighbors G a → a ∈ neighbors G b)
    (hGirr : ∀ a, a ∉ neighbors G a) (base : ColorMap) :
    ∀ (l : List Cell) (m m' : ColorMap), MSub base m → MInv G base m →
      backtrack G l m = (true, m') → MSub base m' ∧ MInv G base m' := by
  intro l
  induction l with
  | nil =>
    intro m m' hsub hinv h
    rw [backtrack] at h
    injection h with _ h
    subst h
    exact ⟨hsub, hinv⟩
  | cons node rest ih =>
    intro m m' hsub hinv h
    rw [backtrack] at h
    split at h
    · exact ih m m' hsub hinv h
    · rename_i hnode
      rw [Option.not_isSome_iff_eq_none] at hnode
      exact tryNode_inv hGsym hGirr
        (fun x y hxy => backtrack_false rest x y hxy)
        (fun x y hx hi hxy => ih x y hx hi hxy)
        possible_colors m m' hnode hsub hinv h

theorem tryNode_complete {G : PyGraph} {node : Cell} {φ : Cell → Nat}
    {recur : ColorMap → Bool × ColorMap}
    (hφval : ∀ a b, b ∈ neighbors G a → φ a ≠ φ b)
    (hrecF : ∀ x y, recur x = (false, y) → y = x)
    (hrecC : ∀ x, (∀ k v, x k = some v → φ k = v) → (recur x).1 = true) :
    ∀ (cs : List Nat) (m : ColorMap),
      (∀ k v, m k = some v → φ k = v) → m node = none → φ node ∈ cs →
      (tryNode G node recur cs m).1 = true := by
  intro cs
  induction cs with
  | nil =>
    intro m _ _ hmem
    exact absurd hmem (List.not_mem_nil _)
  | cons c cs ih =>
    intro m hcompat hnode hmem
    rw [tryNode]
    by_cases hc : c = φ node
    · have hval : is_valid_coloring G m node c = true := by
        rw [is_valid_true_iff]
        intro b hb he
        exact hφval node b hb ((hc ▸ hcompat b c he).symm)
      rw [if_pos hval]
      have hcompat' : ∀ k v, cinsert m node c k = some v → φ k = v := by
        intro k v hk
        by_cases hkn : k = node
        · subst hkn
          rw [cinsert_self] at hk
          injection hk with hk
          rw [← hc]
          exact hk
        · rw [cinsert_other c hkn] at hk
          exact hcompat k v hk
      rcases hr : recur (cinsert m node c) with ⟨b, m2⟩
      have hb : b = true := by
        have := hrecC (cinsert m node c) hcompat'
        rwa [hr] at this
      subst hb
      rfl
    · have hmem' : φ node ∈ cs := by
        rcases List.mem_cons.mp hmem with he | h
        · exact absurd he.symm hc
        · exact h
      split
      · rcases hr : recur (cinsert m node c) with ⟨b, m2⟩
        cases b
        · have hm2 : m2 = cinsert m node c := hrecF _ _ hr
          have hre : cerase m2 node = m := by rw [hm2, cerase_cinsert hnode]
          show (tryNode G node recur cs (cerase m2 node)).1 = true
          rw [hre]
          exact ih m hcompat hnode hmem'
        · rfl
      · exact ih m hcompat hnode hmem'

theorem backtrack_complete {G : PyGraph} (φ : Cell → Nat)
    (hφval : ∀ a b, b ∈ neighbors G a → φ a ≠ φ b) :
    ∀ (l : List Cell), (∀ n ∈ l, φ n ∈ possible_colors) →
      ∀ (m : ColorMap), (∀ k v, m k = some v → φ k = v) →
      (backtrack G l m).1 = true := by
  intro l
  induction l with
  | nil =>
    intro _ m _
    rfl
  | cons node rest ih =>
    intro hl m hcompat
    rw [backtrack]
    split
    · exact ih (fun n hn => hl n (List.mem_cons_of_mem node hn)) m hcompat
    · rename_i hnode
      rw [Option.not_isSome_iff_eq_none] at hnode
      exact tryNode_complete hφval
        (fun x y hxy => backtrack_false rest x y hxy)
        (fun x hx => ih (fun n hn => hl n (List.mem_cons_of_mem node hn)) x hx)
        possible_colors m hcompat hnode (hl node (List.mem_cons_self node rest))

/-! ## The fast solver agrees with the real one -/

theorem all_congr_mem {l1 l2 : List Cell} (h : ∀ x : Cell, x ∈ l1 ↔ x ∈ l2)
    (p : Cell → Bool) : l1.all p = l2.all p := by
  rcases h1 : l1.all p with _ | _ <;> rcases h2 : l2.all p with _ | _ <;>
    try rfl
  · rw [List.all_eq_false] at h1
    rw [List.all_eq_true] at h2
    obtain ⟨x, hx, hpx⟩ := h1
    exact absurd (h2 x ((h x).mp hx)) hpx
  · rw [List.all_eq_false] at h2
    rw [List.all_eq_true] at h1
    obtain ⟨x, hx, hpx⟩ := h2
    exact absurd (h1 x ((h x).mpr hx)) hpx

theorem is_valid_eq {m : ColorMap} {node : Cell} {color : Nat}
    (hn : node ∈ cellsList) :
    is_valid_coloring build_sudoku_graph m node color =
      is_valid_fast m node color := by
  unfold is_valid_coloring is_valid_fast
  exact all_congr_mem (fun x => mem_neighbors_build_of_mem hn) _

theorem tryNode_eq {node : Cell} {recur recurF : ColorMap → Bool × ColorMap}
    (hn : node ∈ cellsList) (hrec : ∀ m, recur m = recurF m) :
    ∀ (cs : List Nat) (m : ColorMap),
      tryNode build_sudoku_graph node recur cs m = tryNodeF node recurF cs m := by
  intro cs
  induction cs with
  | nil => intro m; rfl
  | cons c cs ih =>
    intro m
    rw [tryNode, tryNodeF, is_valid_eq hn, hrec]
    split
    · rcases hF : recurF (cinsert m node c) with ⟨b, m2⟩
      cases b
      · exact ih (cerase m2 node)
      · rfl
    · exact ih m

theorem backtrack_eq :
    ∀ (l : List Cell), (∀ n ∈ l, n ∈ cellsList) → ∀ (m : ColorMap),
      backtrack build_sudoku_graph l m = backtrackF l m := by
  intro l
  induction l with
  | nil => intro _ m; rfl
  | cons node rest ih =>
    intro hsub m
    rw [backtrack, backtrackF]
    have ih' := ih (fun n hn => hsub n (List.mem_cons_of_mem node hn))
    split
    · exact ih' m
    · exact tryNode_eq (hsub node (List.mem_cons_self node rest))
        (fun m' => ih' m') possible_colors m

theorem backtrack_build_eq (m : ColorMap) :
    backtrack build_sudoku_graph build_sudoku_graph.nodes m =
      backtrackF cellsList m := by
  rw [build_nodes]
  exact backtrack_eq cellsList (fun n hn => hn) m

theorem solve_eq_solveF (g : Grid) : solve_sudoku_with_graph g = solveF g := by
  unfold solve_sudoku_with_graph solveWith solveF
  rw [backtrack_build_eq]

/-! ## Solve-level facts -/

theorem solveOut_fst (g : Grid) (r : Bool × ColorMap) :
    (solveOut g r).1 = r.1 := by
  rcases r with ⟨b, m⟩
  cases b <;> rfl

theorem pc_mem_iff {v : Nat} : v ∈ possible_colors ↔ 1 ≤ v ∧ v ≤ 9 := by
  unfold possible_colors
  simp only [List.mem_cons, List.not_mem_nil, or_false]
  omega

theorem seedColors_some {g : Grid} {c : Cell} (h1 : c.1 < 9) (h2 : c.2 < 9)
    (h3 : g c ≠ 0) : seedColors g c = some (g c) := by
  unfold seedColors
  rw [if_pos ⟨h1, h2, h3⟩]

theorem seedColors_none {g : Grid} {c : Cell} (h : g c = 0) :
    seedColors g c = none := by
  unfold seedColors
  rw [if_neg (fun hc => hc.2.2 h)]

theorem solve_fail {g : Grid} (h : (solve_sudoku_with_graph g).1 = false) :
    (solve_sudoku_with_graph g).2 = g := by
  rw [solve_eq_solveF] at h ⊢
  unfold solveF at h ⊢
  rcases hb : backtrackF cellsList (seedColors g) with ⟨b, m⟩
  rw [hb] at h
  cases b
  · rfl
  · exact absurd h (by simp [solveOut])

theorem solve_conserve (g : Grid) {c : Cell} (h1 : c.1 < 9) (h2 : c.2 < 9)
    (h3 : g c ≠ 0) : (solve_sudoku_with_graph g).2 c = g c := by
  rw [solve_eq_solveF]
  unfold solveF
  rcases hb : backtrackF cellsList (seedColors g) with ⟨b, m⟩
  cases b
  · rfl
  · show (m c).getD (g c) = g c
    have hb' : backtrack build_sudoku_graph build_sudoku_graph.nodes
        (seedColors g) = (true, m) :=
      (backtrack_build_eq (seedColors g)).trans hb
    have hseed := seedColors_some h1 h2 h3
    have := backtrack_some build_sudoku_graph.nodes _ _ hb' c
      (by rw [hseed]; rfl)
    rw [this, hseed]
    rfl

/-- Soundness of a successful solve: every originally empty in-range cell is
filled with a digit 1–9 that differs from the values of all of its
neighbors. -/
theorem solve_sound {g : Grid}
    (hs : (solve_sudoku_with_graph g).1 = true) :
    (∀ c ∈ cellsList, g c = 0 →
      1 ≤ (solve_sudoku_with_graph g).2 c ∧ (solve_sudoku_with_graph g).2 c ≤ 9) ∧
    (∀ a ∈ cellsList, g a = 0 → ∀ b ∈ neighbors build_sudoku_graph a,
      (solve_sudoku_with_graph g).2 a ≠ (solve_sudoku_with_graph g).2 b) := by
  rw [solve_eq_solveF] at hs ⊢
  unfold solveF at hs ⊢
  rcases hb : backtrackF cellsList (seedColors g) with ⟨b, m'⟩
  rw [hb] at hs
  cases b
  · exact absurd hs (by simp [solveOut])
  · have hb' : backtrack build_sudoku_graph build_sudoku_graph.nodes
        (seedColors g) = (true, m') :=
      (backtrack_build_eq (seedColors g)).trans hb
    have hfills := backtrack_fills build_sudoku_graph.nodes _ _ hb'
    rw [build_nodes] at hfills
    have hinv := backtrack_inv build_sudoku_graph
      (fun a b => neighbors_build_symm) neighbors_build_irrefl
      (seedColors g) build_sudoku_graph.nodes _ _
      (fun k v hk => hk)
      (fun a v h1 h2 => by rw [h1] at h2; exact Option.noConfusion h2)
      hb'
    have hout : ∀ c ∈ cellsList, g c = 0 →
        ∃ v, m' c = some v ∧ 1 ≤ v ∧ v ≤ 9 := by
      intro c hc h0
      obtain ⟨v, hv1, hv2⟩ := hfills c hc
      rcases hv2 with hv2 | hv2
      · rw [seedColors_none h0] at hv2
        exact Option.noConfusion hv2
      · exact ⟨v, hv1, pc_mem_iff.mp hv2⟩
    constructor
    · intro c hc h0
      obtain ⟨v, hv1, hv2, hv3⟩ := hout c hc h0
      show 1 ≤ (m' c).getD (g c) ∧ (m' c).getD (g c) ≤ 9
      rw [hv1]
      exact ⟨hv2, hv3⟩
    · intro a ha h0 b hbn
      obtain ⟨v, hv1, _, _⟩ := hout a ha h0
      have hbcell : b ∈ cellsList := (mem_neighbors_build.mp hbn).2.1
      obtain ⟨w, hw1, _⟩ := hfills b hbcell
      have hne := hinv.2 a v (seedColors_none h0) hv1 b hbn
      show (m' a).getD (g a) ≠ (m' b).getD (g b)
      rw [hv1, hw1]
      intro he
      rw [Option.getD_some, Option.getD_some] at he
      exact hne (by rw [hw1, he])

/-! ## The empty grid is solvable, and generated puzzles stay solvable -/

theorem witnessGrid_conflict :
    ∀ a ∈ cellsList, ∀ b ∈ cellsList, Conflict a b →
      witnessGrid a ≠ witnessGrid b := by
  decide

theorem witnessGrid_pc : ∀ n ∈ cellsList, witnessGrid n ∈ possible_colors := by
  decide

theorem solve_empty_true : (solve_sudoku_with_graph emptyGrid).1 = true := by
  rw [solve_eq_solveF]
  unfold solveF
  rw [solveOut_fst, ← backtrack_build_eq]
  apply backtrack_complete witnessGrid
  · intro a b hb
    obtain ⟨ha, hbc, hconf⟩ := mem_neighbors_build.mp hb
    exact witnessGrid_conflict a ha b hbc hconf
  · rw [build_nodes]
    exact witnessGrid_pc
  · intro k v hk
    rw [seedColors_none rfl] at hk
    exact Option.noConfusion hk

theorem removeFold_cases :
    ∀ (draws : List Cell) (g : Grid) (c : Cell),
      (draws.foldl removeCell g) c = g c ∨ (draws.foldl removeCell g) c = 0 := by
  intro draws
  induction draws with
  | nil => intro g c; exact Or.inl rfl
  | cons d ds ih =>
    intro g c
    rw [List.foldl_cons]
    rcases ih (removeCell g d) c with h | h
    · by_cases hc : c = d
      · right
        rw [h]
        show (if c = d then 0 else g c) = 0
        rw [if_pos hc]
      · left
        rw [h]
        show (if c = d then 0 else g c) = g c
        rw [if_neg hc]
    · exact Or.inr h

theorem removeFold_zero :
    ∀ (draws : List Cell) (g : Grid) (c : Cell),
      c ∈ draws ∨ g c = 0 → (draws.foldl removeCell g) c = 0 := by
  intro draws
  induction draws with
  | nil =>
    intro g c h
    rcases h with h | h
    · exact absurd h (List.not_mem_nil c)
    · exact h
  | cons d ds ih =>
    intro g c h
    rw [List.foldl_cons]
    apply ih
    rcases h with h | h
    · rcases List.mem_cons.mp h with rfl | h'
      · right
        show (if c = c then 0 else g c) = 0
        rw [if_pos rfl]
      · exact Or.inl h'
    · by_cases hc : c = d
      · right
        show (if c = d then 0 else g c) = 0
        rw [if_pos hc]
      · right
        show (if c = d then 0 else g c) = 0
        rw [if_neg hc]
        exact h

theorem generate_def (draws : List Cell) :
    generate_random_sudoku draws =
      draws.foldl removeCell ((solve_sudoku_with_graph emptyGrid).2) := rfl

theorem puzzle_cases (draws : List Cell) (c : Cell) :
    generate_random_sudoku draws c = (solve_sudoku_with_graph emptyGrid).2 c ∨
      generate_random_sudoku draws c = 0 := by
  rw [generate_def]
  exact removeFold_cases draws _ c

theorem seedColors_eq_some {g : Grid} {c : Cell} {v : Nat}
    (h : seedColors g c = some v) : g c = v ∧ g c ≠ 0 := by
  unfold seedColors at h
  split at h
  · rename_i hc
    injection h with h
    exact ⟨h, hc.2.2⟩
  · exact Option.noConfusion h

theorem generate_solve_true (draws : List Cell) :
    (solve_sudoku_with_graph (generate_random_sudoku draws)).1 = true := by
  have hsound := solve_sound solve_empty_true
  rw [solve_eq_solveF]
  unfold solveF
  rw [solveOut_fst, ← backtrack_build_eq]
  apply backtrack_complete (solve_sudoku_with_graph emptyGrid).2
  · intro a b hb
    obtain ⟨ha, hbc, _⟩ := mem_neighbors_build.mp hb
    exact hsound.2 a ha rfl b hb
  · rw [build_nodes]
    intro n hn
    exact pc_mem_iff.mpr (hsound.1 n hn rfl)
  · intro k v hk
    obtain ⟨hgv, hnz⟩ := seedColors_eq_some hk
    rcases puzzle_cases draws k with hp | hp
    · rw [← hgv, hp]
    · exact absurd hp hnz

/-! ## Facts about the hint scan -/

theorem hintScan_none_iff {g s : Grid} :
    ∀ l : List Cell, hintScan g s l = none ↔ ∀ c ∈ l, g c ≠ 0 := by
  intro l
  induction l with
  | nil => simp [hintScan]
  | cons c rest ih =>
    rw [hintScan]
    by_cases hc : g c = 0
    · rw [if_pos hc]
      simp only [List.mem_cons]
      constructor
      · intro h
        exact Option.noConfusion h
      · intro h
        exact absurd hc (h c (Or.inl rfl))
    · rw [if_neg hc, ih]
      simp only [List.mem_cons]
      constructor
      · rintro h c' (rfl | hc')
        · exact hc
        · exact h c' hc'
      · intro h c' hc'
        exact h c' (Or.inr hc')

theorem hintScan_some {g s : Grid} :
    ∀ {l : List Cell} {i j v : Nat}, hintScan g s l = some (i, j, v) →
      ∃ l1 l2, l = l1 ++ (i, j) :: l2 ∧ (∀ c ∈ l1, g c ≠ 0) ∧
        g (i, j) = 0 ∧ v = s (i, j) := by
  intro l
  induction l with
  | nil =>
    intro i j v h
    exact Option.noConfusion h
  | cons c rest ih =>
    intro i j v h
    rw [hintScan] at h
    by_cases hc : g c = 0
    · rw [if_pos hc] at h
      injection h with h
      obtain ⟨h1, h2⟩ := Prod.mk.injEq .. ▸ h
      injection h with h1 h23
      injection h23 with h2 h3
      have hcij : c = (i, j) := Prod.ext h1 h2
      exact ⟨[], rest, by rw [List.nil_append, ← hcij],
        fun c' hc' => absurd hc' (List.not_mem_nil c'),
        by rw [← hcij]; exact hc, by rw [← hcij, ← h3]⟩
    · rw [if_neg hc] at h
      obtain ⟨l1, l2, he, hall, h0, hv⟩ := ih h
      exact ⟨c :: l1, l2, by rw [he, List.cons_append],
        fun c' hc' => by
          rcases List.mem_cons.mp hc' with rfl | hc''
          · exact hc
          · exact hall c' hc'',
        h0, hv⟩

theorem cellsList_get :
    ∀ n, n < 81 → cellsList.get? n = some (n / 9, n % 9) := by
  decide

theorem cellsList_length : cellsList.length = 81 := by decide

theorem hintScan_congr {g1 g2 s : Grid} :
    ∀ l : List Cell, (∀ c ∈ l, g1 c = 0 ↔ g2 c = 0) →
      hintScan g1 s l = hintScan g2 s l := by
  intro l
  induction l with
  | nil => intro _; rfl
  | cons c rest ih =>
    intro h
    rw [hintScan, hintScan]
    by_cases hc : g1 c = 0
    · rw [if_pos hc, if_pos ((h c (List.mem_cons_self c rest)).mp hc)]
    · rw [if_neg hc,
        if_neg (fun h2 => hc ((h c (List.mem_cons_self c rest)).mpr h2))]
      exact ih (fun c' hc' => h c' (List.mem_cons_of_mem c hc'))

/-! ## The two-fives scenario grid is unsatisfiable -/

theorem gridTwoFives_free {c : Cell} (h1 : c ≠ (0, 0)) (h2 : c ≠ (0, 1)) :
    gridTwoFives c = 0 := by
  unfold gridTwoFives
  rw [if_neg h1, if_neg h2]

/-- If the solver succeeded on the two-fives grid, every row `1..8` of the
output would contain the digit 5 in some column `2..8`, in a column
distinct for each row: eight fives in seven columns.  Hence it fails. -/
theorem twoFives_unsat : (solve_sudoku_with_graph gridTwoFives).1 = false := by
  by_contra hcon
  rw [Bool.not_eq_false] at hcon
  obtain ⟨hA, hB⟩ := solve_sound hcon
  have h00 : (solve_sudoku_with_graph gridTwoFives).2 (0, 0) = 5 := by
    rw [solve_conserve gridTwoFives (by decide) (by decide) (by decide)]
    decide
  have h01 : (solve_sudoku_with_graph gridTwoFives).2 (0, 1) = 5 := by
    rw [solve_conserve gridTwoFives (by decide) (by decide) (by decide)]
    decide
  have hmem : ∀ r c : Nat, r < 9 → c < 9 → ((r, c) : Cell) ∈ cellsList := by
    intro r c h1 h2
    exact mem_cellsList.mpr ⟨h1, h2⟩
  have hnb : ∀ a b : Cell, a.1 < 9 → a.2 < 9 → b.1 < 9 → b.2 < 9 → a ≠ b →
      (a.1 = b.1 ∨ a.2 = b.2) → b ∈ neighbors build_sudoku_graph a := by
    intro a b ha1 ha2 hb1 hb2 hne hor
    exact mem_neighbors_build.mpr ⟨mem_cellsList.mpr ⟨ha1, ha2⟩,
      mem_cellsList.mpr ⟨hb1, hb2⟩, hne, hor.imp id Or.inl⟩
  have hfree : ∀ r c : Nat, 1 ≤ r → r < 9 → c < 9 →
      gridTwoFives (r, c) = 0 := by
    intro r c hr1 hr2 hc
    exact gridTwoFives_free
      (fun he => by injection he with he1 he2; omega)
      (fun he => by injection he with he1 he2; omega)
  have hdiff : ∀ r c r' c' : Nat, 1 ≤ r → r < 9 → c < 9 → r' < 9 → c' < 9 →
      (r, c) ≠ ((r' : Nat), (c' : Nat)) → (r = r' ∨ c = c') →
      (solve_sudoku_with_graph gridTwoFives).2 (r, c) ≠
        (solve_sudoku_with_graph gridTwoFives).2 (r', c') := by
    intro r c r' c' hr1 hr2 hc hr' hc' hne hor
    exact hB (r, c) (hmem r c hr2 hc) (hfree r c hr1 hr2 hc) (r', c')
      (hnb (r, c) (r', c') hr2 hc hr' hc' hne hor)
  have hrow5 : ∀ r : Nat, 1 ≤ r → r ≤ 8 →
      ∃ c, c < 9 ∧ (solve_sudoku_with_graph gridTwoFives).2 (r, c) = 5 := by
    intro r hr1 hr2
    set out := (solve_sudoku_with_graph gridTwoFives).2 with hout
    have hinj : Set.InjOn (fun c => out (r, c)) (Finset.range 9) := by
      intro c1 hc1 c2 hc2 he
      by_contra hne
      rw [Finset.coe_range, Set.mem_Iio] at hc1 hc2
      exact hdiff r c1 r c2 hr1 (by omega) hc1 (by omega) hc2
        (fun hp => by injection hp with hp1 hp2; exact hne hp2) (Or.inl rfl) he
    have hsub : (Finset.range 9).image (fun c => out (r, c)) ⊆
        Finset.Icc 1 9 := by
      intro v hv
      obtain ⟨c, hc, rfl⟩ := Finset.mem_image.mp hv
      rw [Finset.mem_range] at hc
      rw [Finset.mem_Icc]
      exact hA (r, c) (hmem r c (by omega) hc) (hfree r c hr1 (by omega) hc)
    have hcard : ((Finset.range 9).image (fun c => out (r, c))).card = 9 := by
      rw [Finset.card_image_of_injOn hinj, Finset.card_range]
    have heq : (Finset.range 9).image (fun c => out (r, c)) =
        Finset.Icc 1 9 := by
      apply Finset.eq_of_subset_of_card_le hsub
      rw [hcard, Nat.card_Icc]
    have h5 : (5 : Nat) ∈ (Finset.range 9).image (fun c => out (r, c)) := by
      rw [heq, Finset.mem_Icc]
      omega
    obtain ⟨c, hc, hc5⟩ := Finset.mem_image.mp h5
    exact ⟨c, Finset.mem_range.mp hc, hc5⟩
  have hchoice : ∀ r : Nat, ∃ c, (1 ≤ r ∧ r ≤ 8) →
      c < 9 ∧ (solve_sudoku_with_graph gridTwoFives).2 (r, c) = 5 := by
    intro r
    by_cases hr : 1 ≤ r ∧ r ≤ 8
    · obtain ⟨c, hc1, hc2⟩ := hrow5 r hr.1 hr.2
      exact ⟨c, fun _ => ⟨hc1, hc2⟩⟩
    · exact ⟨0, fun h => absurd h hr⟩
  choose f hf using hchoice
  have hJ : ∀ r ∈ Finset.Icc 1 8, f r ∈ Finset.Icc 2 8 := by
    intro r hr
    rw [Finset.mem_Icc] at hr
    obtain ⟨hfr, hfr5⟩ := hf r hr
    rw [Finset.mem_Icc]
    have hne0 : f r ≠ 0 := by
      intro he
      apply hdiff r (f r) 0 0 hr.1 (by omega) hfr (by omega) (by omega)
        (fun hp => by injection hp with hp1 hp2; omega) (Or.inr (by omega))
      rw [hfr5, h00]
    have hne1 : f r ≠ 1 := by
      intro he
      apply hdiff r (f r) 0 1 hr.1 (by omega) hfr (by omega) (by omega)
        (fun hp => by injection hp with hp1 hp2; omega) (Or.inr (by omega))
      rw [hfr5, h01]
    omega
  have hinjf : Set.InjOn f (Finset.Icc 1 8) := by
    intro r1 hr1 r2 hr2 he
    by_contra hne
    rw [Finset.coe_Icc, Set.mem_Icc] at hr1 hr2
    obtain ⟨hf1, hf15⟩ := hf r1 hr1
    obtain ⟨hf2, hf25⟩ := hf r2 hr2
    apply hdiff r1 (f r1) r2 (f r2) hr1.1 (by omega) hf1 (by omega) hf2
      (fun hp => by injection hp with hp1 hp2; exact hne hp1)
      (Or.inr he)
    rw [hf15, hf25]
  have hcard8 : ((Finset.Icc 1 8).image f).card = 8 := by
    rw [Finset.card_image_of_injOn hinjf, Nat.card_Icc]
  have hsub7 : (Finset.Icc 1 8).image f ⊆ Finset.Icc 2 8 := by
    intro v hv
    obtain ⟨r, hr, rfl⟩ := Finset.mem_image.mp hv
    exact hJ r hr
  have := Finset.card_le_card hsub7
  rw [hcard8, Nat.card_Icc] at this
  omega

/-! ## Claim theorems -/

/-- Claim C1, counterexample: the grid whose 81 cells are all pre-filled
with 5 contains the direct contradiction `(0,0)=5`, `(0,1)=5` between two
pre-filled cells, yet `solve_sudoku_with_graph` returns success, because
`backtrack` skips every pre-filled node and never re-checks pre-filled pairs
against each other. -/
theorem C1_counterexample :
    gridAllFives (0, 0) = 5 ∧ gridAllFives (0, 1) = 5 ∧
    ((0 : Nat), (1 : Nat)) ∈ neighbors build_sudoku_graph (0, 0) ∧
    (solve_sudoku_with_graph gridAllFives).1 = true := by
  refine ⟨rfl, rfl, mem_neighbors_build.mpr ⟨by decide, by decide, by decide⟩, ?_⟩
  rw [solve_eq_solveF]
  decide

/-- Claim C1, amended: for the scenario grid whose only pre-filled cells are
the directly contradicting `(0,0)=5` and `(0,1)=5` (all other cells empty),
`solve_sudoku_with_graph` returns `success = false` and leaves the original
grid unchanged. -/
theorem C1_amended :
    solve_sudoku_with_graph gridTwoFives = (false, gridTwoFives) := by
  have h1 := twoFives_unsat
  have h2 := solve_fail h1
  rcases hs : solve_sudoku_with_graph gridTwoFives with ⟨b, out⟩
  rw [hs] at h1 h2
  exact Prod.ext h1 h2

/-- Claim C2, counterexample: on the all-sevens input grid the solver
returns `success = true`, yet the resulting grid holds equal values on the
conflicting pair `(0,0)`, `(0,1)`: the validity guarantee does not extend to
pairs of pre-filled cells. -/
theorem C2_counterexample :
    (solve_sudoku_with_graph gridAllSevens).1 = true ∧
    ((0 : Nat), (1 : Nat)) ∈ neighbors build_sudoku_graph (0, 0) ∧
    (solve_sudoku_with_graph gridAllSevens).2 (0, 0) =
      (solve_sudoku_with_graph gridAllSevens).2 (0, 1) := by
  refine ⟨?_, mem_neighbors_build.mpr ⟨by decide, by decide, by decide⟩, ?_⟩
  · rw [solve_eq_solveF]
    decide
  · rw [solve_eq_solveF]
    decide

/-- Claim C2, amended: for every input grid whose values lie in `0..9` and
whose non-zero cells contain no conflicting equal pair, if
`solve_sudoku_with_graph` returns `success = true` then every cell of the
resulting grid holds a digit `1..9` and every two conflicting cells hold
different values. -/
theorem C2_amended (g : Grid) (hle : ∀ c ∈ cellsList, g c ≤ 9)
    (hnc : ∀ a ∈ cellsList, ∀ b ∈ cellsList, Conflict a b →
      g a ≠ 0 → g b ≠ 0 → g a ≠ g b)
    (hs : (solve_sudoku_with_graph g).1 = true) :
    (∀ c ∈ cellsList, 1 ≤ (solve_sudoku_with_graph g).2 c ∧
      (solve_sudoku_with_graph g).2 c ≤ 9) ∧
    ∀ a ∈ cellsList, ∀ b ∈ neighbors build_sudoku_graph a,
      (solve_sudoku_with_graph g).2 a ≠ (solve_sudoku_with_graph g).2 b := by
  obtain ⟨hA, hB⟩ := solve_sound hs
  constructor
  · intro c hc
    by_cases h0 : g c = 0
    · exact hA c hc h0
    · have hcc := mem_cellsList.mp hc
      rw [solve_conserve g hcc.1 hcc.2 h0]
      exact ⟨Nat.one_le_iff_ne_zero.mpr h0, hle c hc⟩
  · intro a ha b hb
    obtain ⟨_, hbc, hconf⟩ := mem_neighbors_build.mp hb
    by_cases h0a : g a = 0
    · exact hB a ha h0a b hb
    · by_cases h0b : g b = 0
      · exact fun he =>
          hB b hbc h0b a (neighbors_build_symm hb) he.symm
      · have hac := mem_cellsList.mp ha
        have hbcc := mem_cellsList.mp hbc
        rw [solve_conserve g hac.1 hac.2 h0a,
          solve_conserve g hbcc.1 hbcc.2 h0b]
        exact hnc a ha b hbc hconf h0a h0b

/-- Witness for the amended claim C2 at a concrete input. -/
theorem C2_witness :
    (∀ c ∈ cellsList, witnessGridMinus c ≤ 9) ∧
    (solve_sudoku_with_graph witnessGridMinus).1 = true ∧
    ((∀ c ∈ cellsList, 1 ≤ (solve_sudoku_with_graph witnessGridMinus).2 c ∧
      (solve_sudoku_with_graph witnessGridMinus).2 c ≤ 9) ∧
    ∀ a ∈ cellsList, ∀ b ∈ neighbors build_sudoku_graph a,
      (solve_sudoku_with_graph witnessGridMinus).2 a ≠
        (solve_sudoku_with_graph witnessGridMinus).2 b) := by
  have hs : (solve_sudoku_with_graph witnessGridMinus).1 = true := by
    rw [solve_eq_solveF]
    decide
  exact ⟨by decide, hs, C2_amended witnessGridMinus (by decide) (by decide) hs⟩

/-- Claim C3: whenever `solve_sudoku_with_graph` reports failure, the
returned grid is exactly the input grid (the source mutates the grid only in
the success branch, and the color dictionary is restored by the try/undo
discipline). -/
theorem C3_failure_purity (g : Grid)
    (h : (solve_sudoku_with_graph g).1 = false) :
    (solve_sudoku_with_graph g).2 = g :=
  solve_fail h

/-- Witness for claim C3 at a concrete failing input. -/
theorem C3_witness :
    (solve_sudoku_with_graph gridBlocked).1 = false ∧
    (solve_sudoku_with_graph gridBlocked).2 = gridBlocked := by
  have h : (solve_sudoku_with_graph gridBlocked).1 = false := by
    rw [solve_eq_solveF]
    decide
  exact ⟨h, C3_failure_purity gridBlocked h⟩

/-- Claim C4: a cell that is non-zero in the input keeps its value in the
output grid, whether the solve succeeds or fails. -/
theorem C4_conservative (g : Grid) (i j : Nat) (h1 : i < 9) (h2 : j < 9)
    (h3 : g (i, j) ≠ 0) :
    (solve_sudoku_with_graph g).2 (i, j) = g (i, j) :=
  solve_conserve g h1 h2 h3

/-- Witness for claim C4 at a concrete input. -/
theorem C4_witness :
    gridAllFives ((0 : Nat), (0 : Nat)) ≠ 0 ∧
    (solve_sudoku_with_graph gridAllFives).2 (0, 0) = gridAllFives (0, 0) :=
  ⟨by decide, C4_conservative gridAllFives 0 0 (by decide) (by decide)
    (by decide)⟩

/-- Claim C5: the solver enumerates the 81 cells in row-major order (the
graph's node list is exactly `cellsList`, whose `n`-th entry is
`(n / 9, n % 9)`), tries the candidate digits 1 through 9 in increasing
order, and is deterministic: inputs equal on the 81 cells produce equal
success flags and equal output grids on the 81 cells. -/
theorem C5_deterministic_order (g1 g2 : Grid)
    (h : ∀ c ∈ cellsList, g1 c = g2 c) :
    build_sudoku_graph.nodes = cellsList ∧
    (∀ n, n < 81 → cellsList.get? n = some (n / 9, n % 9)) ∧
    possible_colors = [1, 2, 3, 4, 5, 6, 7, 8, 9] ∧
    (solve_sudoku_with_graph g1).1 = (solve_sudoku_with_graph g2).1 ∧
    ∀ c ∈ cellsList,
      (solve_sudoku_with_graph g1).2 c = (solve_sudoku_with_graph g2).2 c := by
  have hseed : seedColors g1 = seedColors g2 := by
    funext c
    unfold seedColors
    by_cases hc : c.1 < 9 ∧ c.2 < 9
    · rw [h c (mem_cellsList.mpr hc)]
    · rw [if_neg (fun hx => hc ⟨hx.1, hx.2.1⟩),
        if_neg (fun hx => hc ⟨hx.1, hx.2.1⟩)]
  refine ⟨build_nodes, cellsList_get, rfl, ?_, ?_⟩
  · rw [solve_eq_solveF, solve_eq_solveF]
    unfold solveF
    rw [solveOut_fst, solveOut_fst, hseed]
  · intro c hc
    rw [solve_eq_solveF, solve_eq_solveF]
    unfold solveF
    rw [hseed]
    rcases hb : backtrackF cellsList (seedColors g2) with ⟨b, m⟩
    cases b
    · exact h c hc
    · show (m c).getD (g1 c) = (m c).getD (g2 c)
      rw [h c hc]

/-- Witness for claim C5 at concrete inputs. -/
theorem C5_witness :
    (∀ c ∈ cellsList, gridAllFives c = gridFivesPadded c) ∧
    (solve_sudoku_with_graph gridAllFives).1 =
      (solve_sudoku_with_graph gridFivesPadded).1 := by
  have h : ∀ c ∈ cellsList, gridAllFives c = gridFivesPadded c := by decide
  exact ⟨h, (C5_deterministic_order gridAllFives gridFivesPadded h).2.2.2.1⟩

/-- Claim C6: in the built conflict graph every one of the 81 cells has
exactly 20 distinct neighbors, no cell is its own neighbor, the relation is
symmetric, and two cells are neighbors exactly when they are distinct
in-range cells sharing a row, a column, or a 3×3 box. -/
theorem C6_graph (c : Cell) (hc : c ∈ cellsList) :
    (neighbors build_sudoku_graph c).length = 20 ∧
    (neighbors build_sudoku_graph c).Nodup ∧
    c ∉ neighbors build_sudoku_graph c ∧
    (∀ b, b ∈ neighbors build_sudoku_graph c ↔
      b ∈ cellsList ∧ c ≠ b ∧
        (c.1 = b.1 ∨ c.2 = b.2 ∨ (c.1 / 3 = b.1 / 3 ∧ c.2 / 3 = b.2 / 3))) ∧
    ∀ b, b ∈ neighbors build_sudoku_graph c →
      c ∈ neighbors build_sudoku_graph b := by
  refine ⟨neighbors_build_length hc, neighbors_nodup c build_edgesNodupU,
    neighbors_build_irrefl c, ?_, fun b hb => neighbors_build_symm hb⟩
  intro b
  rw [mem_neighbors_build]
  unfold Conflict
  constructor
  · rintro ⟨_, hbc, hne, hor⟩
    exact ⟨hbc, hne, hor⟩
  · rintro ⟨hbc, hne, hor⟩
    exact ⟨hc, hbc, hne, hor⟩

/-- Witness for claim C6 at the concrete cell `(0,0)`. -/
theorem C6_witness :
    ((0 : Nat), (0 : Nat)) ∈ cellsList ∧
    (neighbors build_sudoku_graph (0, 0)).length = 20 :=
  ⟨by decide, (C6_graph (0, 0) (by decide)).1⟩

/-- Claim C7, counterexample: `generate_random_sudoku` returns a single
grid, the puzzle; with forty removal draws all hitting `(0,0)` that returned
grid has `(0,0) = 0`, so the value produced by the generator is not a fully
valid solved grid and no separate solution is returned alongside it. -/
theorem C7_counterexample :
    generate_random_sudoku
      (List.replicate 40 ((0 : Nat), (0 : Nat))) ((0 : Nat), (0 : Nat)) = 0 := by
  rw [generate_def]
  exact removeFold_zero _ _ _
    (Or.inl (List.mem_replicate.mpr ⟨by decide, rfl⟩))

/-- Claim C7, amended: the generator returns only the puzzle; the solution
grid is recovered in `main` by re-solving the puzzle
(`mainSolvedGrid`), that re-solve always succeeds, its result is a fully
valid solved grid (every cell a digit 1–9, conflicting cells different), and
every non-zero cell of the puzzle keeps its value in it. -/
theorem C7_amended (draws : List Cell) :
    (solve_sudoku_with_graph (generate_random_sudoku draws)).1 = true ∧
    (∀ c ∈ cellsList, 1 ≤ (mainSolvedGrid draws).2 c ∧
      (mainSolvedGrid draws).2 c ≤ 9) ∧
    (∀ a ∈ cellsList, ∀ b ∈ neighbors build_sudoku_graph a,
      (mainSolvedGrid draws).2 a ≠ (mainSolvedGrid draws).2 b) ∧
    ∀ c ∈ cellsList, generate_random_sudoku draws c ≠ 0 →
      (mainSolvedGrid draws).2 c = generate_random_sudoku draws c := by
  have hgen := generate_solve_true draws
  have hsound0 := solve_sound solve_empty_true
  obtain ⟨hA, hB⟩ := solve_sound hgen
  have hmain : mainSolvedGrid draws =
      solve_sudoku_with_graph (generate_random_sudoku draws) := rfl
  have hcons : ∀ c ∈ cellsList, generate_random_sudoku draws c ≠ 0 →
      (mainSolvedGrid draws).2 c = generate_random_sudoku draws c := by
    intro c hc h0
    have hcc := mem_cellsList.mp hc
    rw [hmain]
    exact solve_conserve _ hcc.1 hcc.2 h0
  have hpz : ∀ c ∈ cellsList, generate_random_sudoku draws c ≠ 0 →
      generate_random_sudoku draws c =
        (solve_sudoku_with_graph emptyGrid).2 c := by
    intro c _ h0
    rcases puzzle_cases draws c with hp | hp
    · exact hp
    · exact absurd hp h0
  refine ⟨hgen, ?_, ?_, hcons⟩
  · intro c hc
    by_cases h0 : generate_random_sudoku draws c = 0
    · rw [hmain]
      exact hA c hc h0
    · rw [hcons c hc h0, hpz c hc h0]
      exact hsound0.1 c hc rfl
  · intro a ha b hb
    obtain ⟨_, hbc, _⟩ := mem_neighbors_build.mp hb
    by_cases h0a : generate_random_sudoku draws a = 0
    · rw [hmain]
      exact hB a ha h0a b hb
    · by_cases h0b : generate_random_sudoku draws b = 0
      · intro he
        apply hB b hbc h0b a (neighbors_build_symm hb)
        rw [← hmain]
        exact he.symm
      · rw [hcons a ha h0a, hcons b hbc h0b, hpz a ha h0a, hpz b hbc h0b]
        exact hsound0.2 a ha rfl b hb

/-- Claim C8: `get_hint` scans the grid in row-major order; it returns
`none` exactly when no in-range cell is zero, and when it returns
`some (i, j, v)` then `(i, j)` is the row-major-first zero cell and `v` is
the solved grid's value there. -/
theorem C8_hint (g s : Grid) :
    (get_hint g s = none ↔ ∀ i j : Nat, i < 9 → j < 9 → g (i, j) ≠ 0) ∧
    ∀ i j v : Nat, get_hint g s = some (i, j, v) →
      i < 9 ∧ j < 9 ∧ g (i, j) = 0 ∧ v = s (i, j) ∧
      ∀ i' j' : Nat, i' < 9 → j' < 9 → 9 * i' + j' < 9 * i + j →
        g (i', j') ≠ 0 := by
  constructor
  · rw [get_hint, hintScan_none_iff]
    constructor
    · intro h i j h1 h2
      exact h (i, j) (mem_cellsList.mpr ⟨h1, h2⟩)
    · intro h c hc
      obtain ⟨h1, h2⟩ := mem_cellsList.mp hc
      exact h c.1 c.2 h1 h2
  · intro i j v h
    rw [get_hint] at h
    obtain ⟨l1, l2, he, hall, h0, hv⟩ := hintScan_some h
    have hlen : cellsList.length = l1.length + (l2.length + 1) := by
      rw [he, List.length_append, List.length_cons]
    rw [cellsList_length] at hlen
    have hn81 : l1.length < 81 := by omega
    have hget : cellsList.get? l1.length = some (i, j) := by
      rw [he, List.get?_append_right (Nat.le_refl l1.length),
        Nat.sub_self]
      rfl
    rw [cellsList_get l1.length hn81] at hget
    injection hget with hget
    have hij : i = l1.length / 9 ∧ j = l1.length % 9 := by
      constructor
      · exact congrArg Prod.fst hget.symm
      · exact congrArg Prod.snd hget.symm
    have hi9 : i < 9 := by omega
    have hj9 : j < 9 := by omega
    refine ⟨hi9, hj9, h0, hv, ?_⟩
    intro i' j' hi' hj' hlt
    have hm81 : 9 * i' + j' < 81 := by omega
    have hmem : cellsList.get? (9 * i' + j') = some (i', j') := by
      rw [cellsList_get (9 * i' + j') hm81]
      have e1 : (9 * i' + j') / 9 = i' := by omega
      have e2 : (9 * i' + j') % 9 = j' := by omega
      rw [e1, e2]
    have hlt1 : 9 * i' + j' < l1.length := by omega
    have hin : (i', j') ∈ l1 := by
      have := hmem
      rw [he, List.get?_append hlt1] at this
      exact List.get?_mem this
    exact hall (i', j') hin

/-- Witness for claim C8 at a concrete input: the first zero cell of the
two-fives grid is `(0,2)`. -/
theorem C8_witness :
    gridTwoFives ((0 : Nat), (2 : Nat)) = 0 ∧
    (3 : Nat) = witnessGrid (0, 2) := by
  have h := (C8_hint gridTwoFives witnessGrid).2 0 2 3 (by decide)
  exact ⟨h.2.2.1, h.2.2.2.1⟩

/-- Claim C9: the hint depends only on the zero-positions of the current
grid and on the solution grid: two current grids with the same zero cells
give the same hint for the same solution grid. -/
theorem C9_hint_zero_positions (g1 g2 s : Grid)
    (h : ∀ c ∈ cellsList, g1 c = 0 ↔ g2 c = 0) :
    get_hint g1 s = get_hint g2 s := by
  rw [get_hint, get_hint]
  exact hintScan_congr cellsList h

/-- Witness for claim C9 at concrete inputs. -/
theorem C9_witness :
    (∀ c ∈ cellsList, gridTwoFives c = 0 ↔ gridTwoOthers c = 0) ∧
    get_hint gridTwoFives witnessGrid = get_hint gridTwoOthers witnessGrid := by
  have h : ∀ c ∈ cellsList, gridTwoFives c = 0 ↔ gridTwoOthers c = 0 := by
    decide
  exact ⟨h, C9_hint_zero_positions gridTwoFives gridTwoOthers witnessGrid h⟩

/-- Claim C10: every puzzle produced by `generate_random_sudoku` (for any
sequence of removal draws) is satisfiable: solving it returns
`success = true`, because the puzzle's non-zero cells agree with the full
valid solution of the empty grid and the backtracking search always finds a
completion when one exists. -/
theorem C10_generated_solvable (draws : List Cell) :
    (solve_sudoku_with_graph (generate_random_sudoku draws)).1 = true :=
  generate_solve_true draws
